import Mathlib

/-!
# Personal Fitness Tracker (`lab-6.c`): embedding and verified properties

The C program keeps a growable array of `struct Workout` behind a
`struct WorkoutList` (pointer, capacity, count).  The embedding below follows
the source function by function.

Modelling conventions.

* The heap block behind `list->workouts` is a `List Workout` with one entry per
  allocated slot; slots at index `count` and above hold indeterminate records.
* The `int` fields are `Int`.  Loop counters that start at `0` and only go up
  are `Nat`.  The two places where the source can leave the 32-bit range
  (`list->capacity * 2` and `list->count++`) go through `wrapInt`, which
  reduces the mathematical result modulo `2^32` into the signed range.
* `malloc` is an oracle (`Heap`): for a request of `n` slots it answers either
  `NULL` or the indeterminate contents of the fresh block.  `size_t` is taken
  to be 64 bits wide, so `newCapacity * sizeof(struct Workout)` does not wrap.
* In `resizeWorkoutList` and `addWorkout` an access outside the block is
  undefined behaviour and makes the result `none`.  The sorts and searches read
  and write only below `count`; they are total functions and their theorems
  assume `count ≤` number of allocated slots.
* A `for` loop whose bounds are not changed by its body is unrolled by its trip
  count (`forRange`); the `while` loop of the binary search runs on fuel.
* A sequence of menu choices 1 is a run (`insertAll`): every `addWorkout` call
  comes with its own allocator state and typed record, and the run continues
  while the calls return `1`.
-/

namespace Lab6

/-! ## Data model -/

/-- Constant `INITIAL_CAPACITY` of the source. -/
def INITIAL_CAPACITY : Int := 4

/-- Constant `MIN_CAPACITY` of the source. -/
def MIN_CAPACITY : Int := 4

/-- Record `struct Date`. -/
structure Date where
  day : Int
  month : Int
  year : Int
deriving DecidableEq, Inhabited

/-- Record `struct Workout`; `type` is the content of the `char type[20]` buffer, one
number per byte. -/
structure Workout where
  date : Date
  type : List Nat
  duration : Int
  calories_burned : Int
deriving DecidableEq, Inhabited

/-- Record `struct WorkoutList`; `workouts` is the heap block the pointer refers to. -/
structure WorkoutList where
  workouts : List Workout
  capacity : Int
  count : Int
deriving DecidableEq

/-- Contents of slot `i` of a block, as read by `list->workouts[i]`. -/
def slot (ws : List Workout) (i : Nat) : Workout := ws.getD i default

/-- The records of the store: the slots at positions `0 .. count - 1`. -/
def records (list : WorkoutList) : List Workout := list.workouts.take list.count.toNat

/-- Result of an `int` computation whose mathematical value is `x`, reduced modulo `2^32`
into the signed 32-bit range. -/
def wrapInt (x : Int) : Int := (x + 2147483648) % 4294967296 - 2147483648

/-- The allocator seen as an oracle: asked for `n` slots it answers `none` (the call
returns `NULL`) or the indeterminate record found in each slot of the fresh block. -/
abbrev Heap := Nat → Option (Nat → Workout)

/-- Call `malloc(n * sizeof(struct Workout))`: `none` for `NULL`, else a block of `n` slots. -/
def malloc (heap : Heap) (n : Nat) : Option (List Workout) :=
  (heap n).map (fun junk => (List.range n).map junk)

/-- Loop `for (int k = lo; k < hi; k++) s = body k s;` with `n = hi - lo` iterations left
to run (`0` when `hi ≤ lo`); the body changes neither `k` nor `hi`. -/
def forRange {σ : Type} (body : Nat → σ → σ) : Nat → Nat → σ → σ
  | 0, _, s => s
  | n + 1, k, s => forRange body n (k + 1) (body k s)

/-- The three assignments `temp = ws[i]; ws[i] = ws[j]; ws[j] = temp;`. -/
def swap (ws : List Workout) (i j : Nat) : List Workout :=
  let temp := slot ws i
  (ws.set i (slot ws j)).set j temp

/-! ## Store management -/

/-- Function `initializeWorkoutList`: `none` when `malloc` returns `NULL` (return value `0`),
else the initialised store (return value `1`).  A negative `initialCapacity` turns into a
request above `2^63` bytes, which no allocator grants. -/
def initializeWorkoutList (heap : Heap) (initialCapacity : Int) : Option WorkoutList :=
  if initialCapacity < 0 then none
  else
    match malloc heap initialCapacity.toNat with
    | none => none
    | some block => some { workouts := block, capacity := initialCapacity, count := 0 }

/-- Copy loop of `resizeWorkoutList`: `for (i = 0; i < count; i++) newArray[i] = workouts[i];`
with `n` iterations left; `none` when a read or a write falls outside its block. -/
def copyLoop (old : List Workout) : Nat → Nat → List Workout → Option (List Workout)
  | 0, _, newArray => some newArray
  | n + 1, i, newArray =>
    match old[i]? with
    | none => none
    | some w => if i < newArray.length then copyLoop old n (i + 1) (newArray.set i w) else none

/-- Function `resizeWorkoutList`: the returned pair is the `int` result and the store
afterwards; `none` stands for undefined behaviour (an access outside a block). -/
def resizeWorkoutList (heap : Heap) (list : WorkoutList) (newCapacity : Int) :
    Option (Int × WorkoutList) :=
  let newCapacity := if newCapacity < MIN_CAPACITY then MIN_CAPACITY else newCapacity
  match malloc heap newCapacity.toNat with
  | none => some (0, list)
  | some newArray =>
    match copyLoop list.workouts list.count.toNat 0 newArray with
    | none => none
    | some newArray => some (1, { list with workouts := newArray, capacity := newCapacity })

/-- Second part of `addWorkout`, from the first `printf` on: the four `scanf` calls leave
the record `input` in slot `count`, then `count++` and the shrink check.  The result of
the shrinking `resizeWorkoutList` call is dropped, as in the source. -/
def addWorkoutStore (heap : Heap) (input : Workout) (list : WorkoutList) :
    Option (Int × WorkoutList) :=
  if 0 ≤ list.count ∧ list.count.toNat < list.workouts.length then
    let list := { list with workouts := list.workouts.set list.count.toNat input }
    let list := { list with count := wrapInt (list.count + 1) }
    if list.count < Int.tdiv list.capacity 4 ∧ list.capacity > MIN_CAPACITY then
      match resizeWorkoutList heap list (Int.tdiv list.capacity 2) with
      | none => none
      | some (_, list) => some (1, list)
    else some (1, list)
  else none

/-- Function `addWorkout`; `input` is the record typed in by the user.  The returned pair
is the `int` result and the store afterwards; `none` stands for undefined behaviour. -/
def addWorkout (heap : Heap) (input : Workout) (list : WorkoutList) :
    Option (Int × WorkoutList) :=
  if list.count = list.capacity then
    match resizeWorkoutList heap list (wrapInt (list.capacity * 2)) with
    | none => none
    | some (r, list) => if r = 0 then some (0, list) else addWorkoutStore heap input list
  else addWorkoutStore heap input list

/-! ## Sorting -/

/-- Inner loop of `selectionSortByDuration`: the final `min_idx` for position `i`. -/
def selectionMinIdx (ws : List Workout) (count : Int) (i : Nat) : Nat :=
  forRange
    (fun j min_idx => if (slot ws j).duration < (slot ws min_idx).duration then j else min_idx)
    (count - (i + 1 : Nat)).toNat (i + 1) i

/-- Body of the outer loop of `selectionSortByDuration`. -/
def selectionStep (count : Int) (i : Nat) (ws : List Workout) : List Workout :=
  let min_idx := selectionMinIdx ws count i
  if min_idx ≠ i then swap ws i min_idx else ws

/-- Function `selectionSortByDuration`. -/
def selectionSortByDuration (list : WorkoutList) : WorkoutList :=
  { list with
    workouts := forRange (selectionStep list.count) (list.count - 1).toNat 0 list.workouts }

/-- Body of the inner loop of `bubbleSortByCalories`. -/
def bubbleStep (j : Nat) (ws : List Workout) : List Workout :=
  if (slot ws j).calories_burned > (slot ws (j + 1)).calories_burned then swap ws j (j + 1)
  else ws

/-- Body of the outer loop of `bubbleSortByCalories`: one pass over `j < count - i - 1`. -/
def bubblePass (count : Int) (i : Nat) (ws : List Workout) : List Workout :=
  forRange bubbleStep (count - (i : Int) - 1).toNat 0 ws

/-- Function `bubbleSortByCalories`. -/
def bubbleSortByCalories (list : WorkoutList) : WorkoutList :=
  { list with
    workouts := forRange (bubblePass list.count) (list.count - 1).toNat 0 list.workouts }

/-! ## Searching -/

/-- Library function `strcmp` on byte strings: the bytes are compared up to the first
difference or the terminating `0`; the end of the list reads as the terminator. -/
def strcmp : List Nat → List Nat → Int
  | [], [] => 0
  | [], b :: _ => 0 - (b : Int)
  | a :: _, [] => (a : Int)
  | a :: as, b :: bs =>
    if a ≠ b then (a : Int) - (b : Int) else if a = 0 then 0 else strcmp as bs

/-- The string held in a `char` buffer: the bytes before the first `0`. -/
def cstr (buf : List Nat) : List Nat := buf.takeWhile (fun c => c ≠ 0)

/-- What the program prints, line by line. -/
inductive Output where
  /-- Line `Workouts of type '<type>':`. -/
  | header (type : List Nat)
  /-- Line printed by `displayWorkout` for one record. -/
  | workout (w : Workout)
  /-- Line `No workouts found of type: <type>`. -/
  | noneFound (type : List Nat)
deriving DecidableEq

/-- Body of the loop of `linearSearchByType`; the state is `found` and the lines printed. -/
def linearSearchStep (ws : List Workout) (type : List Nat) (i : Nat)
    (st : Int × List Output) : Int × List Output :=
  if strcmp (slot ws i).type type = 0 then (1, st.2 ++ [Output.workout (slot ws i)]) else st

/-- Function `linearSearchByType`: the lines it prints. -/
def linearSearchByType (list : WorkoutList) (type : List Nat) : List Output :=
  let st := forRange (linearSearchStep list.workouts type) list.count.toNat 0
    (0, [Output.header (cstr type)])
  if st.1 = 0 then st.2 ++ [Output.noneFound (cstr type)] else st.2

/-- The records among the printed lines, in the order printed. -/
def emitted : List Output → List Workout
  | [] => []
  | Output.workout w :: out => w :: emitted out
  | _ :: out => emitted out

/-- Loop `while (low <= high)` of `binarySearchByDuration`, run on fuel: `none` only when
the fuel runs out before the loop ends. -/
def binarySearchLoop (ws : List Workout) (targetDuration : Int) : Nat → Int → Int → Option Int
  | 0, _, _ => none
  | fuel + 1, low, high =>
    if low ≤ high then
      let mid := low + Int.tdiv (high - low) 2
      if (slot ws mid.toNat).duration = targetDuration then some mid
      else if (slot ws mid.toNat).duration < targetDuration then
        binarySearchLoop ws targetDuration fuel (mid + 1) high
      else binarySearchLoop ws targetDuration fuel low (mid - 1)
    else some (-1)

/-- Function `binarySearchByDuration`, with `count + 1` units of fuel for the loop. -/
def binarySearchByDuration (list : WorkoutList) (targetDuration : Int) : Option Int :=
  binarySearchLoop list.workouts targetDuration (list.count.toNat + 1) 0 (list.count - 1)

/-! ## Predicates used by the statements -/

/-- The block has exactly `capacity` slots and the field `capacity` is a 32-bit `int`. -/
def WellFormed (list : WorkoutList) : Prop :=
  (list.workouts.length : Int) = list.capacity ∧ list.capacity ≤ 2147483647

/-- Invariant of the outer loop of the selection sort before iteration `i`. -/
def SelInv (ws0 : List Workout) (c : Nat) (i : Nat) (ws : List Workout) : Prop :=
  ws.length = ws0.length ∧ (ws.take c).Perm (ws0.take c) ∧
    ∀ a b, a < i → a ≤ b → b < c → (slot ws a).duration ≤ (slot ws b).duration

/-- Invariant of the inner loop of the bubble sort before iteration `j`, relative to the
block `ws0` at the start of the pass. -/
def PassInv (ws0 : List Workout) (c : Nat) (j : Nat) (ws : List Workout) : Prop :=
  ws.length = ws0.length ∧ (ws.take c).Perm (ws0.take c) ∧
    (∀ k, j < k → slot ws k = slot ws0 k) ∧
    (∀ k, k ≤ j → (slot ws k).calories_burned ≤ (slot ws j).calories_burned) ∧
    (∀ k, k ≤ j → ∃ k', k' ≤ j ∧ slot ws k = slot ws0 k')

/-- Invariant of the outer loop of the bubble sort before pass `i`. -/
def BubInv (ws0 : List Workout) (c : Nat) (i : Nat) (ws : List Workout) : Prop :=
  ws.length = ws0.length ∧ (ws.take c).Perm (ws0.take c) ∧
    ∀ a b, a ≤ b → b < c → c ≤ b + i →
      (slot ws a).calories_burned ≤ (slot ws b).calories_burned

/-- The records at positions `0 .. count - 1` are in ascending order of duration, stated
on adjacent positions. -/
def SortedByDuration (list : WorkoutList) : Prop :=
  ∀ i : Nat, (i : Int) + 1 < list.count →
    (slot list.workouts i).duration ≤ (slot list.workouts (i + 1)).duration

/-- The capacity `resizeWorkoutList` settles on for a requested `newCapacity`. -/
def clampCapacity (newCapacity : Int) : Int :=
  if newCapacity < MIN_CAPACITY then MIN_CAPACITY else newCapacity

/-! ## Sample data for the concrete checks -/

/-- A record of type `run` with the given duration and calories. -/
def sampleWorkout (duration calories : Int) : Workout :=
  { date := { day := 1, month := 1, year := 2024 }, type := [114, 117, 110, 0],
    duration := duration, calories_burned := calories }

/-- An allocator that grants every request. -/
def grantAll : Heap := fun _ => some (fun _ => default)

/-- An allocator that refuses every request. -/
def refuseAll : Heap := fun _ => none

/-- A full store of four records, durations 30, 10, 45, 20. -/
def sampleStore : WorkoutList :=
  { workouts := [sampleWorkout 30 300, sampleWorkout 10 120, sampleWorkout 45 90,
      sampleWorkout 20 200],
    capacity := 4, count := 4 }

/-- A full store of four records already in ascending order of duration. -/
def sortedStore : WorkoutList :=
  { workouts := [sampleWorkout 10 120, sampleWorkout 20 200, sampleWorkout 30 300,
      sampleWorkout 45 90],
    capacity := 4, count := 4 }

/-- The store `sampleStore` after the insert of `sampleWorkout 25 100` into a block of
eight slots granted by `grantAll`. -/
def grownStore : WorkoutList :=
  { workouts := [sampleWorkout 30 300, sampleWorkout 10 120, sampleWorkout 45 90,
      sampleWorkout 20 200, sampleWorkout 25 100, default, default, default],
    capacity := 8, count := 5 }

/-- An empty store with eight allocated slots. -/
def spareStore : WorkoutList :=
  { workouts := List.replicate 8 default, capacity := 8, count := 0 }

/-- A run of inserts: each step calls `addWorkout` with its own allocator state and typed
record, and the run goes on only while the calls return `1`; `none` when a call returns
`0` or is undefined. -/
def insertAll : List (Heap × Workout) → WorkoutList → Option WorkoutList
  | [], list => some list
  | (heap, input) :: rest, list =>
    match addWorkout heap input list with
    | none => none
    | some (r, list') => if r = 1 then insertAll rest list' else none

/-- Menu option 6 of `main`: `selectionSortByDuration` followed by
`binarySearchByDuration`; the result is the store after the sort and the index found. -/
def searchByDurationOption (list : WorkoutList) (targetDuration : Int) :
    WorkoutList × Option Int :=
  let list := selectionSortByDuration list
  (list, binarySearchByDuration list targetDuration)

/-- An empty store with four allocated slots, as `main` creates it. -/
def emptyStore : WorkoutList :=
  { workouts := List.replicate 4 default, capacity := 4, count := 0 }

/-- A store of three distinct records with durations 2, 2, 1. -/
def tieStore : WorkoutList :=
  { workouts := [sampleWorkout 2 100, sampleWorkout 2 200, sampleWorkout 1 300],
    capacity := 3, count := 3 }

/-- A store of four distinct records, two of which burn 200 calories. -/
def calorieTieStore : WorkoutList :=
  { workouts := [sampleWorkout 30 300, sampleWorkout 10 200, sampleWorkout 45 90,
      sampleWorkout 20 200],
    capacity := 4, count := 4 }

/-- Invariant of a run of `n` successful inserts that starts from the empty store of
capacity `INITIAL_CAPACITY`. -/
def RunShape (n : Nat) (list : WorkoutList) : Prop :=
  WellFormed list ∧ list.count = (n : Int) ∧ (n : Int) ≤ list.capacity ∧
    (list.capacity = 4 ∨ list.capacity < 2 * (n : Int)) ∧
    ∃ k : Nat, list.capacity = ((4 * 2 ^ k : Nat) : Int)

/-- Invariant of a run of successful inserts that starts from an empty store of capacity
`c`: the capacity has reached the floor or is still the starting one, and a starting
capacity below the floor is kept until more than `c` records are in. -/
def FloorShape (c : Int) (list : WorkoutList) : Prop :=
  WellFormed list ∧ 0 ≤ list.count ∧ list.count ≤ list.capacity ∧
    (4 ≤ list.capacity ∨ list.capacity = c) ∧
    (c ≤ 3 → list.capacity = c ∨ c < list.count)

/-- The test of the shrink branch of `addWorkout` (source line 242) on a store. -/
def shrinkTest (list : WorkoutList) : Prop :=
  list.count < Int.tdiv list.capacity 4 ∧ list.capacity > MIN_CAPACITY

/-- Five inserts, each with an allocator that grants every request. -/
def fiveRun : List (Heap × Workout) :=
  [(grantAll, sampleWorkout 30 300), (grantAll, sampleWorkout 10 120),
    (grantAll, sampleWorkout 45 90), (grantAll, sampleWorkout 20 200),
    (grantAll, sampleWorkout 25 100)]

/-- An empty store with a single allocated slot. -/
def singleSlotStore : WorkoutList :=
  { workouts := [default], capacity := 1, count := 0 }

/-- The store `singleSlotStore` after one insert. -/
def filledSlotStore : WorkoutList :=
  { workouts := [sampleWorkout 30 300], capacity := 1, count := 1 }

/-- The store `sampleStore` after a resize to six slots granted by `grantAll`. -/
def resizedStore : WorkoutList :=
  { workouts := [sampleWorkout 30 300, sampleWorkout 10 120, sampleWorkout 45 90,
      sampleWorkout 20 200, default, default],
    capacity := 6, count := 4 }

/-- Two inserts, each with an allocator that grants every request. -/
def twoRun : List (Heap × Workout) :=
  [(grantAll, sampleWorkout 30 300), (grantAll, sampleWorkout 10 120)]

/-- The store `singleSlotStore` after the two inserts of `twoRun`: the second one found
the store full and grew it to the floor of four slots. -/
def regrownStore : WorkoutList :=
  { workouts := [sampleWorkout 30 300, sampleWorkout 10 120, default, default],
    capacity := 4, count := 2 }

/-- A store of twelve slots holding one record. -/
def wideStore : WorkoutList :=
  { workouts := sampleWorkout 10 120 :: List.replicate 11 default, capacity := 12,
    count := 1 }

/-! ## Lemmas -/

set_option linter.unusedVariables false

theorem forRange_inv {σ : Type} (P : Nat → σ → Prop) (body : Nat → σ → σ) :
    ∀ (n k : Nat) (s : σ), P k s →
      (∀ j t, k ≤ j → j < k + n → P j t → P (j + 1) (body j t)) →
      P (k + n) (forRange body n k s)
  | 0, k, s, h, _ => by simpa [forRange] using h
  | n + 1, k, s, h, step => by
    have h1 : P (k + 1) (body k s) := step k s (Nat.le_refl k) (by omega) h
    have := forRange_inv P body n (k + 1) (body k s) h1
      (fun j t hj hlt hp => step j t (by omega) (by omega) hp)
    simpa [forRange, Nat.add_assoc, Nat.add_comm 1 n] using this

theorem slot_eq_getElem (ws : List Workout) (i : Nat) (h : i < ws.length) :
    slot ws i = ws[i] := by
  simp [slot, h]

theorem swap_length (ws : List Workout) (i j : Nat) : (swap ws i j).length = ws.length := by
  simp [swap]

theorem slot_swap (ws : List Workout) (i j k : Nat) (hi : i < ws.length) (hj : j < ws.length) :
    slot (swap ws i j) k =
      if k = j then slot ws i else if k = i then slot ws j else slot ws k := by
  unfold swap slot
  simp only [List.getD_eq_getElem?_getD, List.getElem?_set, List.length_set]
  by_cases h1 : k = j
  · subst h1; simp [hj]
  · by_cases h2 : k = i
    · subst h2; simp [hi, h1, Ne.symm h1]
    · simp [h1, h2, Ne.symm h1, Ne.symm h2]

theorem swap_perm (ws : List Workout) (i j : Nat) (hi : i < ws.length) (hj : j < ws.length) :
    (swap ws i j).Perm ws := by
  rw [List.perm_iff_count]
  intro a
  unfold swap
  rw [List.count_set _ _ _ _ (by simpa using hj), List.count_set _ _ _ _ hi]
  have e1 : slot ws i = ws[i] := slot_eq_getElem ws i hi
  have e2 : slot ws j = ws[j] := slot_eq_getElem ws j hj
  have b1 := List.boole_getElem_le_count a ws i hi
  have b2 := List.boole_getElem_le_count a ws j hj
  by_cases hij : i = j
  · subst hij
    simp only [List.getElem_set_self, e1] at *
    split_ifs at * <;> omega
  · rw [List.getElem_set_ne hij]
    simp only [e1, e2]
    split_ifs at * <;> omega

theorem take_swap (ws : List Workout) (i j n : Nat) (hi : i < n) (hj : j < n) :
    (swap ws i j).take n = swap (ws.take n) i j := by
  have a1 : slot (ws.take n) i = slot ws i := by simp [slot, List.getElem?_take, hi]
  have a2 : slot (ws.take n) j = slot ws j := by simp [slot, List.getElem?_take, hj]
  simp only [swap, List.set_take, a1, a2]

theorem swap_take_perm (ws : List Workout) (i j n : Nat) (hi : i < n) (hj : j < n)
    (hn : n ≤ ws.length) : ((swap ws i j).take n).Perm (ws.take n) := by
  rw [take_swap ws i j n hi hj]
  exact swap_perm _ i j (by simp; omega) (by simp; omega)

theorem selectionMinIdx_spec (ws : List Workout) (count : Int) (i : Nat)
    (hi : (i : Int) < count) :
    i ≤ selectionMinIdx ws count i ∧ (selectionMinIdx ws count i : Int) < count ∧
      ∀ k, i ≤ k → (k : Int) < count →
        (slot ws (selectionMinIdx ws count i)).duration ≤ (slot ws k).duration := by
  unfold selectionMinIdx
  have key := forRange_inv
    (fun j m => i ≤ m ∧ m < j ∧ ∀ k, i ≤ k → k < j → (slot ws m).duration ≤ (slot ws k).duration)
    (fun j min_idx => if (slot ws j).duration < (slot ws min_idx).duration then j else min_idx)
    (count - (i + 1 : Nat)).toNat (i + 1) i
    ⟨Nat.le_refl i, Nat.lt_succ_self i, fun k h1 h2 => by
      have : k = i := by omega
      subst this; exact le_refl _⟩
    (by
      intro j m hj _ hP
      obtain ⟨h1, h2, h3⟩ := hP
      dsimp only
      split_ifs with hlt
      · refine ⟨by omega, by omega, fun k hk1 hk2 => ?_⟩
        by_cases hkj : k = j
        · subst hkj; exact le_refl _
        · exact le_trans (le_of_lt hlt) (h3 k hk1 (by omega))
      · refine ⟨h1, by omega, fun k hk1 hk2 => ?_⟩
        by_cases hkj : k = j
        · subst hkj; exact not_lt.mp hlt
        · exact h3 k hk1 (by omega))
  obtain ⟨h1, h2, h3⟩ := key
  have hn : i + 1 + (count - (i + 1 : Nat)).toNat = count.toNat := by omega
  rw [hn] at h2 h3
  refine ⟨h1, by omega, fun k hk1 hk2 => h3 k hk1 (by omega)⟩

theorem selectionStep_inv (ws0 : List Workout) (count : Int) (hc : count.toNat ≤ ws0.length)
    (i : Nat) (ws : List Workout) (hi : (i : Int) < count) (h : SelInv ws0 count.toNat i ws) :
    SelInv ws0 count.toNat (i + 1) (selectionStep count i ws) := by
  obtain ⟨hlen, hperm, hsorted⟩ := h
  obtain ⟨m1, m2, m3⟩ := selectionMinIdx_spec ws count i hi
  unfold selectionStep
  dsimp only
  generalize selectionMinIdx ws count i = m at m1 m2 m3
  have hiL : i < ws.length := by omega
  have hmL : m < ws.length := by omega
  split_ifs with hne
  · refine ⟨by rw [swap_length, hlen], ?_, ?_⟩
    · exact (swap_take_perm ws i m count.toNat (by omega) (by omega) (by omega)).trans hperm
    · intro a b ha hab hb
      rw [slot_swap ws i m a hiL hmL, slot_swap ws i m b hiL hmL]
      have src : ∀ k, i ≤ k → k < count.toNat →
          (slot ws (if a = m then i else if a = i then m else a)).duration ≤
            (slot ws k).duration := by
        intro k hk1 hk2
        by_cases hai : a = i
        · have : a ≠ m := by omega
          simp only [this, hai, if_true, if_false]
          have : ¬ (i = m) := by omega
          simp only [this, if_false]
          exact m3 k hk1 (by omega)
        · have ham : a ≠ m := by omega
          simp only [ham, hai, if_false]
          exact hsorted a k (by omega) (by omega) hk2
      have e : ∀ x, (if x = m then slot ws i else if x = i then slot ws m else slot ws x) =
          slot ws (if x = m then i else if x = i then m else x) := by
        intro x; split_ifs <;> rfl
      rw [e a, e b]
      by_cases hbi : b < i
      · -- both below i and hence untouched
        have : a ≠ m := by omega
        have : a ≠ i := by omega
        have : b ≠ m := by omega
        have : b ≠ i := by omega
        simp only [*, if_false]
        exact hsorted a b (by omega) hab hb
      · apply src
        · split_ifs <;> omega
        · split_ifs <;> omega
  · have hmi : m = i := not_not.mp hne
    subst hmi
    refine ⟨hlen, hperm, ?_⟩
    intro a b ha hab hb
    by_cases hai : a = m
    · subst hai; exact m3 b hab (by omega)
    · exact hsorted a b (by omega) hab hb

theorem selectionSort_inv (list : WorkoutList)
    (h : list.count ≤ (list.workouts.length : Int)) :
    SelInv list.workouts list.count.toNat (list.count - 1).toNat
      (selectionSortByDuration list).workouts := by
  have key := forRange_inv (fun i ws => SelInv list.workouts list.count.toNat i ws)
    (selectionStep list.count) (list.count - 1).toNat 0 list.workouts
    ⟨rfl, List.Perm.refl _, fun a b ha => absurd ha (Nat.not_lt_zero a)⟩
    (fun j t _ hj hP => selectionStep_inv list.workouts list.count (by omega) j t (by omega) hP)
  simpa [selectionSortByDuration] using key

theorem bubbleStep_inv (ws0 : List Workout) (c : Nat) (hc : c ≤ ws0.length) (j : Nat)
    (ws : List Workout) (hj : j + 1 < c) (h : PassInv ws0 c j ws) :
    PassInv ws0 c (j + 1) (bubbleStep j ws) := by
  obtain ⟨hlen, hperm, hrest, hmax, hsrc⟩ := h
  have hjL : j < ws.length := by omega
  have hj1L : j + 1 < ws.length := by omega
  unfold bubbleStep
  split_ifs with hgt
  · refine ⟨by rw [swap_length, hlen], ?_, ?_, ?_, ?_⟩
    · exact (swap_take_perm ws j (j + 1) c (by omega) hj (by omega)).trans hperm
    · intro k hk
      rw [slot_swap ws j (j + 1) k hjL hj1L, if_neg (by omega), if_neg (by omega)]
      exact hrest k (by omega)
    · intro k hk
      rw [slot_swap ws j (j + 1) k hjL hj1L, slot_swap ws j (j + 1) (j + 1) hjL hj1L,
        if_pos rfl]
      by_cases h1 : k = j + 1
      · rw [if_pos h1]
      · rw [if_neg h1]
        by_cases h2 : k = j
        · rw [if_pos h2]; exact le_of_lt hgt
        · rw [if_neg h2]; exact hmax k (by omega)
    · intro k hk
      rw [slot_swap ws j (j + 1) k hjL hj1L]
      by_cases h1 : k = j + 1
      · rw [if_pos h1]
        obtain ⟨k', hk', e⟩ := hsrc j (Nat.le_refl j)
        exact ⟨k', by omega, e⟩
      · rw [if_neg h1]
        by_cases h2 : k = j
        · rw [if_pos h2]
          exact ⟨j + 1, Nat.le_refl _, hrest (j + 1) (Nat.lt_succ_self j)⟩
        · rw [if_neg h2]
          obtain ⟨k', hk', e⟩ := hsrc k (by omega)
          exact ⟨k', by omega, e⟩
  · have hle : (slot ws j).calories_burned ≤ (slot ws (j + 1)).calories_burned :=
      not_lt.mp hgt
    refine ⟨hlen, hperm, fun k hk => hrest k (by omega), ?_, ?_⟩
    · intro k hk
      by_cases h1 : k = j + 1
      · rw [h1]
      · exact le_trans (hmax k (by omega)) hle
    · intro k hk
      by_cases h1 : k = j + 1
      · exact ⟨j + 1, Nat.le_refl _, by rw [h1]; exact hrest (j + 1) (Nat.lt_succ_self j)⟩
      · obtain ⟨k', hk', e⟩ := hsrc k (by omega)
        exact ⟨k', by omega, e⟩

theorem bubblePass_inv (ws : List Workout) (count : Int) (i : Nat)
    (hc : count.toNat ≤ ws.length) :
    PassInv ws count.toNat (count - (i : Int) - 1).toNat (bubblePass count i ws) := by
  have key := forRange_inv (fun j t => PassInv ws count.toNat j t) bubbleStep
    (count - (i : Int) - 1).toNat 0 ws
    ⟨rfl, List.Perm.refl _, fun _ _ => rfl,
      fun k hk => by rw [Nat.le_zero.mp hk],
      fun k hk => ⟨0, Nat.le_refl 0, by rw [Nat.le_zero.mp hk]⟩⟩
    (fun j t _ hj hP => bubbleStep_inv ws count.toNat hc j t (by omega) hP)
  simpa [bubblePass] using key

theorem bubblePass_outer (ws0 : List Workout) (count : Int) (hc : count.toNat ≤ ws0.length)
    (i : Nat) (ws : List Workout) (hi : (i : Int) < count - 1)
    (h : BubInv ws0 count.toNat i ws) :
    BubInv ws0 count.toNat (i + 1) (bubblePass count i ws) := by
  obtain ⟨hlen, hperm, hsorted⟩ := h
  obtain ⟨plen, pperm, prest, pmax, psrc⟩ := bubblePass_inv ws count i (by omega)
  generalize bubblePass count i ws = ws' at plen pperm prest pmax psrc
  generalize hn : (count - (i : Int) - 1).toNat = n at prest pmax psrc
  refine ⟨plen.trans hlen, pperm.trans hperm, ?_⟩
  intro a b hab hb hbi
  by_cases hbn : b = n
  · subst hbn; exact pmax a hab
  · have hbgt : n < b := by omega
    rw [prest b hbgt]
    by_cases han : n < a
    · rw [prest a han]; exact hsorted a b hab hb (by omega)
    · obtain ⟨a', ha', e⟩ := psrc a (by omega)
      rw [e]; exact hsorted a' b (by omega) hb (by omega)

theorem bubbleSort_inv (list : WorkoutList)
    (h : list.count ≤ (list.workouts.length : Int)) :
    BubInv list.workouts list.count.toNat (list.count - 1).toNat
      (bubbleSortByCalories list).workouts := by
  have key := forRange_inv (fun i ws => BubInv list.workouts list.count.toNat i ws)
    (bubblePass list.count) (list.count - 1).toNat 0 list.workouts
    ⟨rfl, List.Perm.refl _, fun a b _ hb hbi => by omega⟩
    (fun j t _ hj hP => bubblePass_outer list.workouts list.count (by omega) j t (by omega) hP)
  simpa [bubbleSortByCalories] using key

theorem sortedByDuration_mono (list : WorkoutList) (h : SortedByDuration list) :
    ∀ (j i : Nat), i ≤ j → (j : Int) < list.count →
      (slot list.workouts i).duration ≤ (slot list.workouts j).duration
  | 0, i, hij, _ => by rw [Nat.le_zero.mp hij]
  | j + 1, i, hij, hj => by
    by_cases e : i = j + 1
    · rw [e]
    · exact le_trans (sortedByDuration_mono list h j i (by omega) (by omega))
        (h j (by push_cast at hj; omega))

theorem binarySearchLoop_spec (list : WorkoutList) (target : Int)
    (hs : SortedByDuration list) :
    ∀ (fuel : Nat) (low high : Int), 0 ≤ low → high < list.count →
      (high - low + 1).toNat < fuel →
      (∀ k : Nat, (k : Int) < low → (k : Int) < list.count →
        (slot list.workouts k).duration < target) →
      (∀ k : Nat, high < (k : Int) → (k : Int) < list.count →
        target < (slot list.workouts k).duration) →
      ∃ r : Int, binarySearchLoop list.workouts target fuel low high = some r ∧
        ((r = -1 ∧ ∀ k : Nat, (k : Int) < list.count →
            (slot list.workouts k).duration ≠ target) ∨
          (0 ≤ r ∧ r < list.count ∧ (slot list.workouts r.toNat).duration = target))
  | 0, _, _, _, _, hf, _, _ => absurd hf (Nat.not_lt_zero _)
  | fuel + 1, low, high, hlow, hhigh, hf, hbelow, habove => by
    unfold binarySearchLoop
    by_cases hle : low ≤ high
    · rw [if_pos hle]
      have hdiv : Int.tdiv (high - low) 2 = (high - low) / 2 :=
        Int.tdiv_eq_ediv (by omega) (by omega)
      dsimp only
      rw [hdiv]
      generalize hmid : low + (high - low) / 2 = mid
      have hm1 : low ≤ mid := by omega
      have hm2 : mid ≤ high := by omega
      have hmn : ((mid.toNat : Nat) : Int) = mid := by omega
      by_cases heq : (slot list.workouts mid.toNat).duration = target
      · rw [if_pos heq]
        exact ⟨mid, rfl, Or.inr ⟨by omega, by omega, heq⟩⟩
      · rw [if_neg heq]
        by_cases hlt : (slot list.workouts mid.toNat).duration < target
        · rw [if_pos hlt]
          apply binarySearchLoop_spec list target hs fuel (mid + 1) high (by omega) hhigh
            (by omega) _ habove
          intro k hk hkc
          exact lt_of_le_of_lt
            (sortedByDuration_mono list hs mid.toNat k (by omega) (by omega)) hlt
        · rw [if_neg hlt]
          have hgt : target < (slot list.workouts mid.toNat).duration :=
            lt_of_le_of_ne (not_lt.mp hlt) (Ne.symm heq)
          apply binarySearchLoop_spec list target hs fuel low (mid - 1) hlow (by omega)
            (by omega) hbelow
          intro k hk hkc
          exact lt_of_lt_of_le hgt
            (sortedByDuration_mono list hs k mid.toNat (by omega) hkc)
    · rw [if_neg hle]
      refine ⟨-1, rfl, Or.inl ⟨rfl, ?_⟩⟩
      intro k hk
      by_cases hkl : (k : Int) < low
      · exact ne_of_lt (hbelow k hkl hk)
      · exact ne_of_gt (habove k (by omega) hk)

theorem binarySearch_spec (list : WorkoutList) (target : Int) (hs : SortedByDuration list) :
    ∃ r : Int, binarySearchByDuration list target = some r ∧
      ((r = -1 ∧ ∀ k : Nat, (k : Int) < list.count →
          (slot list.workouts k).duration ≠ target) ∨
        (0 ≤ r ∧ r < list.count ∧ (slot list.workouts r.toNat).duration = target)) := by
  unfold binarySearchByDuration
  exact binarySearchLoop_spec list target hs (list.count.toNat + 1) 0 (list.count - 1)
    (le_refl 0) (by omega) (by omega) (fun k hk _ => by omega) (fun k hk hkc => by omega)

theorem strcmp_eq_zero_iff : ∀ (a b : List Nat), strcmp a b = 0 ↔ cstr a = cstr b
  | [], [] => by simp [strcmp]
  | [], b :: bs => by
    by_cases hb : b = 0
    · simp [strcmp, cstr, hb]
    · simp [strcmp, cstr, hb, List.takeWhile_cons]
  | a :: as, [] => by
    by_cases ha : a = 0
    · simp [strcmp, cstr, ha]
    · simp [strcmp, cstr, ha, List.takeWhile_cons]
  | a :: as, b :: bs => by
    have ih := strcmp_eq_zero_iff as bs
    unfold strcmp
    by_cases hab : a = b
    · subst hab
      by_cases ha : a = 0
      · simp [cstr, ha]
      · simpa [cstr, ha, List.takeWhile_cons] using ih
    · have hne : (a : Int) - (b : Int) ≠ 0 := by omega
      by_cases ha : a = 0
      · have hb : b ≠ 0 := fun h => hab (ha.trans h.symm)
        subst ha
        simp [cstr, hab, hb, Ne.symm hb, List.takeWhile_cons]
      · by_cases hb : b = 0
        · simp [cstr, hab, hne, ha, hb, List.takeWhile_cons]
        · simp [cstr, hab, hne, ha, hb, List.takeWhile_cons]

theorem emitted_append (a b : List Output) : emitted (a ++ b) = emitted a ++ emitted b := by
  induction a with
  | nil => rfl
  | cons x xs ih => cases x <;> simp [emitted, ih]

theorem take_succ_slot (ws : List Workout) (j : Nat) (hj : j < ws.length) :
    ws.take (j + 1) = ws.take j ++ [slot ws j] := by
  rw [List.take_succ, slot_eq_getElem ws j hj]
  simp [hj]

theorem linearSearchLoop_emitted (ws : List Workout) (type : List Nat) (n : Nat)
    (hn : n ≤ ws.length) (st0 : Int × List Output) (h0 : emitted st0.2 = []) :
    emitted (forRange (linearSearchStep ws type) n 0 st0).2 =
      (ws.take n).filter (fun w => decide (cstr w.type = cstr type)) := by
  have key := forRange_inv
    (fun j (st : Int × List Output) => j ≤ ws.length →
      emitted st.2 = (ws.take j).filter (fun w => decide (cstr w.type = cstr type)))
    (linearSearchStep ws type) n 0 st0 (fun _ => by simpa using h0)
    (by
      intro j st _ hj hP hjl
      have ih := hP (by omega)
      rw [take_succ_slot ws j (by omega), List.filter_append]
      unfold linearSearchStep
      by_cases hc : strcmp (slot ws j).type type = 0
      · rw [if_pos hc]
        have : cstr (slot ws j).type = cstr type := (strcmp_eq_zero_iff _ _).mp hc
        simp [emitted_append, emitted, ih, this]
      · rw [if_neg hc]
        have : ¬ cstr (slot ws j).type = cstr type := fun h => hc ((strcmp_eq_zero_iff _ _).mpr h)
        simp [ih, this])
  simpa using key (by simpa using hn)

theorem linearSearch_emitted (list : WorkoutList) (type : List Nat)
    (h : list.count ≤ (list.workouts.length : Int)) :
    emitted (linearSearchByType list type) =
      (records list).filter (fun w => decide (cstr w.type = cstr type)) := by
  have key := linearSearchLoop_emitted list.workouts type list.count.toNat (by omega)
    (0, [Output.header (cstr type)]) rfl
  unfold linearSearchByType records
  dsimp only
  split_ifs
  · rw [emitted_append, key]; simp [emitted]
  · exact key

theorem wrapInt_of_inRange (x : Int) (h1 : -2147483648 ≤ x) (h2 : x ≤ 2147483647) :
    wrapInt x = x := by
  unfold wrapInt; omega

theorem wrapInt_range (x : Int) : -2147483648 ≤ wrapInt x ∧ wrapInt x ≤ 2147483647 := by
  unfold wrapInt; omega

theorem malloc_length (heap : Heap) (n : Nat) (block : List Workout)
    (h : malloc heap n = some block) : block.length = n := by
  unfold malloc at h
  cases hh : heap n with
  | none => simp [hh] at h
  | some junk =>
    simp only [hh, Option.map_some', Option.some.injEq] at h
    subst h
    simp

theorem copyLoop_some (old : List Workout) :
    ∀ (n i : Nat) (newArray r : List Workout), copyLoop old n i newArray = some r →
      (n = 0 ∨ (i + n ≤ old.length ∧ i + n ≤ newArray.length)) ∧ r.length = newArray.length ∧
        ∀ k, r[k]? = if i ≤ k ∧ k < i + n then old[k]? else newArray[k]?
  | 0, i, newArray, r, h => by
    simp only [copyLoop, Option.some.injEq] at h
    subst h
    refine ⟨Or.inl rfl, rfl, fun k => ?_⟩
    rw [if_neg (by omega)]
  | n + 1, i, newArray, r, h => by
    unfold copyLoop at h
    cases ho : old[i]? with
    | none => simp [ho] at h
    | some w =>
      simp only [ho] at h
      by_cases hi : i < newArray.length
      · rw [if_pos hi] at h
        obtain ⟨hb, hlen, hget⟩ := copyLoop_some old n (i + 1) (newArray.set i w) r h
        have hio : i < old.length := by
          by_contra hc
          rw [List.getElem?_eq_none (by omega)] at ho
          exact Option.noConfusion ho
        refine ⟨Or.inr ?_, by simpa using hlen, fun k => ?_⟩
        · rcases hb with hb | hb
          · subst hb; exact ⟨by omega, by omega⟩
          · simp only [List.length_set] at hb; exact ⟨by omega, by omega⟩
        · rw [hget k]
          by_cases hk : k = i
          · subst hk
            rw [if_neg (by omega), if_pos (by omega), List.getElem?_set_self hi, ho]
          · rw [List.getElem?_set_ne (Ne.symm hk)]
            by_cases hk2 : i + 1 ≤ k ∧ k < i + 1 + n
            · rw [if_pos hk2, if_pos (by omega)]
            · rw [if_neg hk2, if_neg (by omega)]
      · rw [if_neg hi] at h
        exact Option.noConfusion h

theorem copyLoop_total (old : List Workout) :
    ∀ (n i : Nat) (newArray : List Workout), i + n ≤ old.length → i + n ≤ newArray.length →
      ∃ r, copyLoop old n i newArray = some r
  | 0, _, newArray, _, _ => ⟨newArray, rfl⟩
  | n + 1, i, newArray, h1, h2 => by
    unfold copyLoop
    have hio : i < old.length := by omega
    rw [List.getElem?_eq_getElem hio]
    dsimp only
    rw [if_pos (by omega)]
    exact copyLoop_total old n (i + 1) _ (by omega) (by simp; omega)

theorem copyLoop_take (old newArray r : List Workout) (n : Nat)
    (h : copyLoop old n 0 newArray = some r) :
    n ≤ old.length ∧ n ≤ newArray.length ∧ r.length = newArray.length ∧
      r.take n = old.take n := by
  obtain ⟨hb, hlen, hget⟩ := copyLoop_some old n 0 newArray r h
  refine ⟨by omega, by omega, hlen, ?_⟩
  apply List.ext_getElem?
  intro k
  rw [List.getElem?_take, List.getElem?_take, hget k]
  by_cases hk : k < n
  · rw [if_pos hk, if_pos hk, if_pos ⟨Nat.zero_le k, by omega⟩]
  · rw [if_neg hk, if_neg hk]

theorem resizeWorkoutList_some (heap : Heap) (list : WorkoutList) (newCapacity : Int)
    (r : Int) (list' : WorkoutList)
    (h : resizeWorkoutList heap list newCapacity = some (r, list')) :
    (r = 0 ∧ list' = list ∧ malloc heap (clampCapacity newCapacity).toNat = none) ∨
      (r = 1 ∧ list'.capacity = clampCapacity newCapacity ∧ list'.count = list.count ∧
        (list'.workouts.length : Int) = clampCapacity newCapacity ∧
        list.count.toNat ≤ list'.workouts.length ∧
        list'.workouts.take list.count.toNat = list.workouts.take list.count.toNat) := by
  unfold resizeWorkoutList at h
  dsimp only at h
  have hcl : (if newCapacity < MIN_CAPACITY then MIN_CAPACITY else newCapacity) =
      clampCapacity newCapacity := rfl
  rw [hcl] at h
  have hpos : 0 ≤ clampCapacity newCapacity := by
    unfold clampCapacity MIN_CAPACITY; split_ifs <;> omega
  cases hm : malloc heap (clampCapacity newCapacity).toNat with
  | none =>
    simp only [hm, Option.some.injEq, Prod.mk.injEq] at h
    exact Or.inl ⟨h.1.symm, h.2.symm, rfl⟩
  | some block =>
    simp only [hm] at h
    have hbl := malloc_length heap _ block hm
    cases hcp : copyLoop list.workouts list.count.toNat 0 block with
    | none => simp [hcp] at h
    | some copied =>
      simp only [hcp, Option.some.injEq, Prod.mk.injEq] at h
      obtain ⟨c1, c2, c3, c4⟩ := copyLoop_take _ _ _ _ hcp
      obtain ⟨hr, hl⟩ := h
      subst hl
      refine Or.inr ⟨hr.symm, rfl, rfl, ?_, ?_, c4⟩
      · show ((copied.length : Nat) : Int) = clampCapacity newCapacity
        rw [c3, hbl]; omega
      · show list.count.toNat ≤ copied.length
        omega

theorem take_set_append (ws : List Workout) (c : Nat) (input : Workout) (hc : c < ws.length) :
    (ws.set c input).take (c + 1) = ws.take c ++ [input] := by
  rw [take_succ_slot _ c (by simpa using hc)]
  congr 1
  · rw [List.set_take, List.set_eq_of_length_le (by simp)]
  · simp [slot, hc]

theorem addWorkoutStore_some (heap : Heap) (input : Workout) (list : WorkoutList)
    (r : Int) (list' : WorkoutList) (hwf : WellFormed list)
    (h : addWorkoutStore heap input list = some (r, list')) :
    r = 1 ∧ 0 ≤ list.count ∧ list.count < list.capacity ∧ list'.count = list.count + 1 ∧
      list'.workouts.take (list.count.toNat + 1) = list.workouts.take list.count.toNat ++ [input] ∧
      WellFormed list' ∧ list'.count ≤ list'.capacity ∧
      (MIN_CAPACITY ≤ list.capacity → MIN_CAPACITY ≤ list'.capacity) := by
  obtain ⟨hlen, hmax⟩ := hwf
  unfold addWorkoutStore at h
  by_cases hb : 0 ≤ list.count ∧ list.count.toNat < list.workouts.length
  · rw [if_pos hb] at h
    obtain ⟨hb0, hb1⟩ := hb
    have hlt : list.count < list.capacity := by omega
    have hw : wrapInt (list.count + 1) = list.count + 1 :=
      wrapInt_of_inRange _ (by omega) (by omega)
    have htk := take_set_append list.workouts list.count.toNat input hb1
    dsimp only at h
    rw [hw] at h
    split_ifs at h with hsh
    · -- the shrink branch
      cases hrs : resizeWorkoutList heap
          { workouts := list.workouts.set list.count.toNat input, capacity := list.capacity,
            count := list.count + 1 } (Int.tdiv list.capacity 2) with
      | none => simp [hrs] at h
      | some p =>
        obtain ⟨r1, l1⟩ := p
        simp only [hrs, Option.some.injEq, Prod.mk.injEq] at h
        obtain ⟨hr, hl⟩ := h
        subst hl
        have hdiv4 : Int.tdiv list.capacity 4 = list.capacity / 4 :=
          Int.tdiv_eq_ediv (by omega) (by omega)
        have hdiv2 : Int.tdiv list.capacity 2 = list.capacity / 2 :=
          Int.tdiv_eq_ediv (by omega) (by omega)
        rw [hdiv4] at hsh
        rcases resizeWorkoutList_some _ _ _ _ _ hrs with ⟨_, e, _⟩ | ⟨_, e1, e2, e3, e4, e5⟩
        · subst e
          refine ⟨hr.symm, hb0, hlt, rfl, htk, ⟨?_, hmax⟩, ?_, fun h4 => h4⟩
          · show (((list.workouts.set list.count.toNat input).length : Nat) : Int) = list.capacity
            simpa using hlen
          · show list.count + 1 ≤ list.capacity
            omega
        · simp only at e2 e4 e5
          have hcl : clampCapacity (Int.tdiv list.capacity 2) = list.capacity / 2 := by
            rw [hdiv2]; unfold clampCapacity MIN_CAPACITY
            unfold MIN_CAPACITY at hsh
            split_ifs <;> omega
          rw [hcl] at e1 e3
          have hcn : (list.count + 1).toNat = list.count.toNat + 1 := by omega
          rw [hcn] at e5
          unfold MIN_CAPACITY at hsh ⊢
          refine ⟨hr.symm, hb0, hlt, e2, e5.trans htk, ⟨by omega, by omega⟩, by omega,
            fun _ => by omega⟩
    · simp only [Option.some.injEq, Prod.mk.injEq] at h
      obtain ⟨hr, hl⟩ := h
      subst hl
      refine ⟨hr.symm, hb0, hlt, rfl, htk, ⟨?_, hmax⟩, ?_, fun h4 => h4⟩
      · show (((list.workouts.set list.count.toNat input).length : Nat) : Int) = list.capacity
        simpa using hlen
      · show list.count + 1 ≤ list.capacity
        omega
  · rw [if_neg hb] at h
    exact Option.noConfusion h

theorem addWorkout_some (heap : Heap) (input : Workout) (list list' : WorkoutList)
    (hwf : WellFormed list) (h : addWorkout heap input list = some (1, list')) :
    list'.count = list.count + 1 ∧ records list' = records list ++ [input] ∧
      WellFormed list' ∧ list'.count ≤ list'.capacity ∧
      (MIN_CAPACITY ≤ list.capacity → MIN_CAPACITY ≤ list'.capacity) := by
  have hrec : ∀ l : WorkoutList, 0 ≤ list.count → l.count = list.count + 1 →
      l.workouts.take (list.count.toNat + 1) = list.workouts.take list.count.toNat ++ [input] →
      records l = records list ++ [input] := by
    intro l hc e1 e2
    unfold records
    rw [e1, show (list.count + 1).toNat = list.count.toNat + 1 by omega]
    exact e2
  unfold addWorkout at h
  by_cases hfull : list.count = list.capacity
  · rw [if_pos hfull] at h
    cases hrs : resizeWorkoutList heap list (wrapInt (list.capacity * 2)) with
    | none => simp [hrs] at h
    | some p =>
      obtain ⟨r1, l1⟩ := p
      simp only [hrs] at h
      rcases resizeWorkoutList_some _ _ _ _ _ hrs with ⟨e0, _, _⟩ | ⟨e0, e1, e2, e3, e4, e5⟩
      · rw [if_pos e0] at h
        simp at h
      · rw [if_neg (by omega)] at h
        have hrange := wrapInt_range (list.capacity * 2)
        have hclr : clampCapacity (wrapInt (list.capacity * 2)) ≤ 2147483647 ∧
            MIN_CAPACITY ≤ clampCapacity (wrapInt (list.capacity * 2)) := by
          unfold clampCapacity MIN_CAPACITY; split_ifs <;> omega
        have hwf1 : WellFormed l1 := ⟨by rw [e3, e1], by rw [e1]; exact hclr.1⟩
        obtain ⟨_, s2, _, s4, s5, s6, s7, s8⟩ := addWorkoutStore_some heap input l1 1 list' hwf1 h
        rw [e2] at s2 s4 s5
        rw [e5] at s5
        exact ⟨s4, hrec list' s2 s4 s5, s6, s7, fun _ => s8 (by rw [e1]; exact hclr.2)⟩
  · rw [if_neg hfull] at h
    obtain ⟨_, s2, _, s4, s5, s6, s7, s8⟩ := addWorkoutStore_some heap input list 1 list' hwf h
    exact ⟨s4, hrec list' s2 s4 s5, s6, s7, s8⟩

theorem resizeWorkoutList_defined (heap : Heap) (list : WorkoutList) (newCapacity : Int)
    (h1 : list.count.toNat ≤ list.workouts.length)
    (h2 : list.count ≤ clampCapacity newCapacity) :
    ∃ r list', resizeWorkoutList heap list newCapacity = some (r, list') := by
  unfold resizeWorkoutList
  dsimp only
  have hcl : (if newCapacity < MIN_CAPACITY then MIN_CAPACITY else newCapacity) =
      clampCapacity newCapacity := rfl
  rw [hcl]
  cases hm : malloc heap (clampCapacity newCapacity).toNat with
  | none => exact ⟨0, list, rfl⟩
  | some block =>
    have hbl := malloc_length heap _ block hm
    obtain ⟨copied, hcp⟩ := copyLoop_total list.workouts list.count.toNat 0 block
      (by omega) (by omega)
    exact ⟨1, { list with workouts := copied, capacity := clampCapacity newCapacity },
      by simp only [hcp]⟩

theorem addWorkoutStore_defined (heap : Heap) (input : Workout) (list : WorkoutList)
    (hwf : WellFormed list) (h0 : 0 ≤ list.count) (h1 : list.count < list.capacity) :
    ∃ list', addWorkoutStore heap input list = some (1, list') := by
  obtain ⟨hlen, hmax⟩ := hwf
  unfold addWorkoutStore
  rw [if_pos ⟨h0, by omega⟩]
  dsimp only
  rw [wrapInt_of_inRange _ (by omega) (by omega)]
  split_ifs with hsh
  · have hdiv4 : Int.tdiv list.capacity 4 = list.capacity / 4 :=
      Int.tdiv_eq_ediv (by omega) (by omega)
    have hdiv2 : Int.tdiv list.capacity 2 = list.capacity / 2 :=
      Int.tdiv_eq_ediv (by omega) (by omega)
    rw [hdiv4] at hsh
    obtain ⟨r, l1, hrs⟩ := resizeWorkoutList_defined heap
      { workouts := list.workouts.set list.count.toNat input, capacity := list.capacity,
        count := list.count + 1 } (Int.tdiv list.capacity 2)
      (by simp only [List.length_set]; omega)
      (by
        rw [hdiv2]; unfold clampCapacity MIN_CAPACITY
        show list.count + 1 ≤ _
        split_ifs <;> omega)
    exact ⟨l1, by simp only [hrs]⟩
  · exact ⟨_, rfl⟩

theorem addWorkout_defined (heap : Heap) (input : Workout) (list : WorkoutList)
    (hwf : WellFormed list) (h0 : 0 ≤ list.count) (h1 : list.count ≤ list.capacity)
    (hcap : list.capacity ≤ 1073741823) :
    ∃ r list', addWorkout heap input list = some (r, list') ∧ (r = 0 ∨ r = 1) := by
  unfold addWorkout
  by_cases hfull : list.count = list.capacity
  · rw [if_pos hfull]
    have hw : wrapInt (list.capacity * 2) = list.capacity * 2 :=
      wrapInt_of_inRange _ (by omega) (by omega)
    have hcl : clampCapacity (list.capacity * 2) = max (list.capacity * 2) 4 := by
      unfold clampCapacity MIN_CAPACITY; split_ifs <;> omega
    rw [hw]
    obtain ⟨r, l1, hrs⟩ := resizeWorkoutList_defined heap list (list.capacity * 2)
      (by have := hwf.1; omega) (by rw [hcl]; omega)
    simp only [hrs]
    rcases resizeWorkoutList_some _ _ _ _ _ hrs with ⟨e0, e, _⟩ | ⟨e0, e1, e2, e3, e4, e5⟩
    · rw [if_pos e0]; exact ⟨0, l1, rfl, Or.inl rfl⟩
    · rw [if_neg (by omega)]
      rw [hcl] at e1 e3
      obtain ⟨l2, hl2⟩ := addWorkoutStore_defined heap input l1
        ⟨by rw [e3, e1], by rw [e1]; omega⟩ (by rw [e2]; exact h0) (by rw [e1, e2]; omega)
      exact ⟨1, l2, hl2, Or.inr rfl⟩
  · rw [if_neg hfull]
    obtain ⟨l2, hl2⟩ := addWorkoutStore_defined heap input list hwf h0 (by omega)
    exact ⟨1, l2, hl2, Or.inr rfl⟩

theorem exists_slot_iff_mem_take (ws : List Workout) (n : Nat) (hn : n ≤ ws.length)
    (P : Workout → Prop) :
    (∃ k, k < n ∧ P (slot ws k)) ↔ ∃ w, w ∈ ws.take n ∧ P w := by
  constructor
  · rintro ⟨k, hk, hP⟩
    refine ⟨slot ws k, ?_, hP⟩
    rw [slot_eq_getElem ws k (by omega), List.mem_iff_getElem]
    exact ⟨k, by rw [List.length_take]; omega, by rw [List.getElem_take]⟩
  · rintro ⟨w, hw, hP⟩
    obtain ⟨k, hk, e⟩ := List.mem_iff_getElem.mp hw
    rw [List.length_take] at hk
    refine ⟨k, by omega, ?_⟩
    rw [slot_eq_getElem ws k (by omega)]
    rw [List.getElem_take] at e
    rw [e]; exact hP

theorem binarySearchLoop_safe (ws : List Workout) (target : Int) :
    ∀ (fuel : Nat) (low high : Int), 0 ≤ low → (high - low + 1).toNat < fuel →
      ∃ r : Int, binarySearchLoop ws target fuel low high = some r ∧
        (r = -1 ∨ (low ≤ r ∧ r ≤ high ∧ (slot ws r.toNat).duration = target))
  | 0, _, _, _, hf => absurd hf (Nat.not_lt_zero _)
  | fuel + 1, low, high, hlow, hf => by
    unfold binarySearchLoop
    by_cases hle : low ≤ high
    · rw [if_pos hle]
      have hdiv : Int.tdiv (high - low) 2 = (high - low) / 2 :=
        Int.tdiv_eq_ediv (by omega) (by omega)
      dsimp only
      rw [hdiv]
      generalize hmid : low + (high - low) / 2 = mid
      have hm1 : low ≤ mid := by omega
      have hm2 : mid ≤ high := by omega
      by_cases heq : (slot ws mid.toNat).duration = target
      · rw [if_pos heq]
        exact ⟨mid, rfl, Or.inr ⟨hm1, hm2, heq⟩⟩
      · rw [if_neg heq]
        by_cases hlt : (slot ws mid.toNat).duration < target
        · rw [if_pos hlt]
          obtain ⟨r, hr, hcase⟩ :=
            binarySearchLoop_safe ws target fuel (mid + 1) high (by omega) (by omega)
          refine ⟨r, hr, ?_⟩
          rcases hcase with h | ⟨h1, h2, h3⟩
          · exact Or.inl h
          · exact Or.inr ⟨by omega, h2, h3⟩
        · rw [if_neg hlt]
          obtain ⟨r, hr, hcase⟩ :=
            binarySearchLoop_safe ws target fuel low (mid - 1) hlow (by omega)
          refine ⟨r, hr, ?_⟩
          rcases hcase with h | ⟨h1, h2, h3⟩
          · exact Or.inl h
          · exact Or.inr ⟨h1, by omega, h3⟩
    · rw [if_neg hle]
      exact ⟨-1, rfl, Or.inl rfl⟩

theorem linearSearchLoop_state (ws : List Workout) (type : List Nat) (n : Nat)
    (hn : n ≤ ws.length) (hd : Output) :
    (forRange (linearSearchStep ws type) n 0 (0, [hd])).2 =
        hd :: ((ws.take n).filter (fun w => decide (cstr w.type = cstr type))).map
          Output.workout ∧
      ((forRange (linearSearchStep ws type) n 0 (0, [hd])).1 = 0 ↔
        (ws.take n).filter (fun w => decide (cstr w.type = cstr type)) = []) := by
  have key := forRange_inv
    (fun j (st : Int × List Output) => j ≤ ws.length →
      st.2 = hd :: ((ws.take j).filter (fun w => decide (cstr w.type = cstr type))).map
          Output.workout ∧
        (st.1 = 0 ↔ (ws.take j).filter (fun w => decide (cstr w.type = cstr type)) = []))
    (linearSearchStep ws type) n 0 (0, [hd]) (fun _ => by simp)
    (by
      intro j st _ hj hP hjl
      obtain ⟨ih1, ih2⟩ := hP (by omega)
      rw [take_succ_slot ws j (by omega), List.filter_append]
      unfold linearSearchStep
      by_cases hc : strcmp (slot ws j).type type = 0
      · rw [if_pos hc]
        have : cstr (slot ws j).type = cstr type := (strcmp_eq_zero_iff _ _).mp hc
        simp [ih1, this]
      · rw [if_neg hc]
        have : ¬ cstr (slot ws j).type = cstr type := fun h => hc ((strcmp_eq_zero_iff _ _).mpr h)
        simp [ih1, ih2, this])
  simpa using key (by simpa using hn)

theorem linearSearchByType_eq (list : WorkoutList) (type : List Nat)
    (h : list.count ≤ (list.workouts.length : Int)) :
    linearSearchByType list type =
      Output.header (cstr type) ::
        (((records list).filter (fun w => decide (cstr w.type = cstr type))).map Output.workout ++
          if (records list).filter (fun w => decide (cstr w.type = cstr type)) = [] then
            [Output.noneFound (cstr type)]
          else []) := by
  obtain ⟨k1, k2⟩ := linearSearchLoop_state list.workouts type list.count.toNat (by omega)
    (Output.header (cstr type))
  unfold linearSearchByType records
  dsimp only
  by_cases hf : (forRange (linearSearchStep list.workouts type) list.count.toNat 0
      (0, [Output.header (cstr type)])).1 = 0
  · rw [if_pos hf, k1, if_pos (k2.mp hf)]
    simp
  · rw [if_neg hf, k1, if_neg (fun e => hf (k2.mpr e))]
    simp

theorem swap_adjacent_split : ∀ (l : List Workout) (j : Nat), j + 1 < l.length →
    ∃ (A : List Workout) (x y : Workout) (B : List Workout),
      l = A ++ x :: y :: B ∧ swap l j (j + 1) = A ++ y :: x :: B ∧
        slot l j = x ∧ slot l (j + 1) = y
  | [], _, h => absurd h (Nat.not_lt_zero _)
  | [_], j, h => by simp at h
  | a :: b :: t, 0, _ => ⟨[], a, b, t, rfl, by simp [swap, slot], by simp [slot], by simp [slot]⟩
  | a :: t, j + 1, h => by
    obtain ⟨A, x, y, B, e1, e2, e3, e4⟩ := swap_adjacent_split t j (by simpa using h)
    refine ⟨a :: A, x, y, B, by rw [e1]; rfl, ?_, ?_, ?_⟩
    · have : swap (a :: t) (j + 1) (j + 1 + 1) = a :: swap t j (j + 1) := by
        simp [swap, slot]
      rw [this, e2]; rfl
    · rw [← e3]; simp [slot]
    · rw [← e4]; simp [slot]

theorem filter_swap_adjacent (p : Workout → Bool) (l : List Workout) (j : Nat)
    (hj : j + 1 < l.length) (hp : ¬ (p (slot l j) = true ∧ p (slot l (j + 1)) = true)) :
    (swap l j (j + 1)).filter p = l.filter p := by
  obtain ⟨A, x, y, B, e1, e2, e3, e4⟩ := swap_adjacent_split l j hj
  rw [e3, e4] at hp
  rw [e2, e1]
  simp only [List.filter_append, List.filter_cons]
  cases hx : p x <;> cases hy : p y <;> simp_all

theorem bubbleStep_filter (v : Int) (c : Nat) (j : Nat) (ws : List Workout) (hj : j + 1 < c)
    (hc : c ≤ ws.length) :
    (bubbleStep j ws).length = ws.length ∧
      ((bubbleStep j ws).take c).filter (fun w => decide (w.calories_burned = v)) =
        (ws.take c).filter (fun w => decide (w.calories_burned = v)) := by
  unfold bubbleStep
  split_ifs with hgt
  · refine ⟨swap_length ws j (j + 1), ?_⟩
    rw [take_swap ws j (j + 1) c (by omega) hj]
    have a1 : slot (ws.take c) j = slot ws j := by
      simp [slot, List.getElem?_take, show j < c by omega]
    have a2 : slot (ws.take c) (j + 1) = slot ws (j + 1) := by
      simp [slot, List.getElem?_take, hj]
    apply filter_swap_adjacent _ _ j (by rw [List.length_take]; omega)
    rw [a1, a2]
    simp only [decide_eq_true_eq]
    rintro ⟨h1, h2⟩
    rw [h1, h2] at hgt
    exact lt_irrefl v hgt
  · exact ⟨rfl, rfl⟩

theorem bubblePass_filter (v : Int) (count : Int) (i : Nat) (ws : List Workout)
    (hc : count.toNat ≤ ws.length) :
    (bubblePass count i ws).length = ws.length ∧
      ((bubblePass count i ws).take count.toNat).filter
          (fun w => decide (w.calories_burned = v)) =
        (ws.take count.toNat).filter (fun w => decide (w.calories_burned = v)) := by
  have key := forRange_inv
    (fun (_ : Nat) (t : List Workout) => t.length = ws.length ∧
      (t.take count.toNat).filter (fun w => decide (w.calories_burned = v)) =
        (ws.take count.toNat).filter (fun w => decide (w.calories_burned = v)))
    bubbleStep (count - (i : Int) - 1).toNat 0 ws ⟨rfl, rfl⟩
    (by
      intro j t _ hj hP
      obtain ⟨s1, s2⟩ := bubbleStep_filter v count.toNat j t (by omega) (by omega)
      exact ⟨s1.trans hP.1, s2.trans hP.2⟩)
  exact key

theorem bubbleSort_filter (v : Int) (list : WorkoutList)
    (h : list.count ≤ (list.workouts.length : Int)) :
    (records (bubbleSortByCalories list)).filter (fun w => decide (w.calories_burned = v)) =
      (records list).filter (fun w => decide (w.calories_burned = v)) := by
  have key := forRange_inv
    (fun (_ : Nat) (t : List Workout) => t.length = list.workouts.length ∧
      (t.take list.count.toNat).filter (fun w => decide (w.calories_burned = v)) =
        (list.workouts.take list.count.toNat).filter
          (fun w => decide (w.calories_burned = v)))
    (bubblePass list.count) (list.count - 1).toNat 0 list.workouts ⟨rfl, rfl⟩
    (by
      intro j t _ hj hP
      obtain ⟨s1, s2⟩ := bubblePass_filter v list.count j t (by omega)
      exact ⟨s1.trans hP.1, s2.trans hP.2⟩)
  exact key.2

theorem initializeWorkoutList_some (heap : Heap) (c : Int) (list : WorkoutList)
    (h : initializeWorkoutList heap c = some list) :
    0 ≤ c ∧ list.capacity = c ∧ list.count = 0 ∧ (list.workouts.length : Int) = c := by
  unfold initializeWorkoutList at h
  by_cases hc : c < 0
  · rw [if_pos hc] at h
    exact Option.noConfusion h
  · rw [if_neg hc] at h
    cases hm : malloc heap c.toNat with
    | none => simp [hm] at h
    | some block =>
      simp only [hm, Option.some.injEq] at h
      have hbl := malloc_length heap _ block hm
      subst h
      refine ⟨by omega, rfl, rfl, ?_⟩
      show ((block.length : Nat) : Int) = c
      omega

theorem addWorkoutStore_plain (heap : Heap) (input : Workout) (list : WorkoutList)
    (hwf : WellFormed list) (h0 : 0 ≤ list.count) (h1 : list.count < list.capacity)
    (hns : ¬ (list.count + 1 < list.capacity / 4 ∧ list.capacity > 4)) :
    addWorkoutStore heap input list =
      some (1, { workouts := list.workouts.set list.count.toNat input,
                 capacity := list.capacity, count := list.count + 1 }) := by
  obtain ⟨hlen, hmax⟩ := hwf
  unfold addWorkoutStore
  rw [if_pos ⟨h0, by omega⟩]
  dsimp only
  rw [wrapInt_of_inRange _ (by omega) (by omega)]
  have hdiv4 : Int.tdiv list.capacity 4 = list.capacity / 4 :=
    Int.tdiv_eq_ediv (by omega) (by omega)
  rw [hdiv4]
  unfold MIN_CAPACITY
  rw [if_neg hns]

theorem addWorkout_capacity (heap : Heap) (input : Workout) (list list' : WorkoutList)
    (hwf : WellFormed list) (h0 : 0 ≤ list.count) (h1 : list.count ≤ list.capacity)
    (h4 : 4 ≤ list.capacity) (hhalf : list.capacity = 4 ∨ list.capacity < 2 * list.count)
    (h : addWorkout heap input list = some (1, list')) :
    list'.capacity = (if list.count = list.capacity then 2 * list.capacity
      else list.capacity) := by
  unfold addWorkout at h
  by_cases hfull : list.count = list.capacity
  · rw [if_pos hfull] at h ⊢
    cases hrs : resizeWorkoutList heap list (wrapInt (list.capacity * 2)) with
    | none => simp [hrs] at h
    | some p =>
      obtain ⟨r1, l1⟩ := p
      simp only [hrs] at h
      rcases resizeWorkoutList_some _ _ _ _ _ hrs with ⟨e0, _, _⟩ | ⟨e0, e1, e2, e3, e4, e5⟩
      · rw [if_pos e0] at h
        simp at h
      · rw [if_neg (by omega)] at h
        have hmax := hwf.2
        have hcl : clampCapacity (wrapInt (list.capacity * 2)) = 2 * list.capacity := by
          have hle : list.count ≤ clampCapacity (wrapInt (list.capacity * 2)) := by omega
          revert hle
          unfold clampCapacity MIN_CAPACITY wrapInt
          split_ifs <;> omega
        have hclmax : clampCapacity (wrapInt (list.capacity * 2)) ≤ 2147483647 := by
          have hrange := wrapInt_range (list.capacity * 2)
          unfold clampCapacity MIN_CAPACITY; split_ifs <;> omega
        rw [hcl] at e1 e3 hclmax
        have hplain := addWorkoutStore_plain heap input l1 ⟨by rw [e3, e1], by rw [e1]; omega⟩
          (by rw [e2]; exact h0) (by rw [e1, e2]; omega) (by rw [e1, e2]; omega)
        rw [hplain] at h
        simp only [Option.some.injEq, Prod.mk.injEq, true_and] at h
        rw [← h]
        exact e1
  · rw [if_neg hfull] at h ⊢
    have hplain := addWorkoutStore_plain heap input list hwf h0 (by omega) (by omega)
    rw [hplain] at h
    simp only [Option.some.injEq, Prod.mk.injEq, true_and] at h
    rw [← h]

theorem addWorkout_floor (heap : Heap) (input : Workout) (list list' : WorkoutList)
    (hwf : WellFormed list) (hfull : list.count = list.capacity)
    (h : addWorkout heap input list = some (1, list')) : MIN_CAPACITY ≤ list'.capacity := by
  unfold addWorkout at h
  rw [if_pos hfull] at h
  cases hrs : resizeWorkoutList heap list (wrapInt (list.capacity * 2)) with
  | none => simp [hrs] at h
  | some p =>
    obtain ⟨r1, l1⟩ := p
    simp only [hrs] at h
    rcases resizeWorkoutList_some _ _ _ _ _ hrs with ⟨e0, _, _⟩ | ⟨e0, e1, e2, e3, e4, e5⟩
    · rw [if_pos e0] at h
      simp at h
    · rw [if_neg (by omega)] at h
      have hrange := wrapInt_range (list.capacity * 2)
      have hclr : clampCapacity (wrapInt (list.capacity * 2)) ≤ 2147483647 ∧
          MIN_CAPACITY ≤ clampCapacity (wrapInt (list.capacity * 2)) := by
        unfold clampCapacity MIN_CAPACITY; split_ifs <;> omega
      have hwf1 : WellFormed l1 := ⟨by rw [e3, e1], by rw [e1]; exact hclr.1⟩
      obtain ⟨_, _, _, _, _, _, _, s8⟩ := addWorkoutStore_some heap input l1 1 list' hwf1 h
      exact s8 (by rw [e1]; exact hclr.2)

theorem insertAll_cons_some (heap : Heap) (input : Workout) (rest : List (Heap × Workout))
    (list final : WorkoutList) (h : insertAll ((heap, input) :: rest) list = some final) :
    ∃ list', addWorkout heap input list = some (1, list') ∧ insertAll rest list' = some final := by
  unfold insertAll at h
  cases ha : addWorkout heap input list with
  | none => simp [ha] at h
  | some p =>
    obtain ⟨r, l1⟩ := p
    simp only [ha] at h
    by_cases hr : r = 1
    · rw [if_pos hr] at h
      subst hr
      exact ⟨l1, rfl, h⟩
    · rw [if_neg hr] at h
      exact Option.noConfusion h

theorem insertAll_inv (P : Nat → WorkoutList → Prop)
    (step : ∀ (n : Nat) (heap : Heap) (input : Workout) (l l' : WorkoutList), P n l →
      addWorkout heap input l = some (1, l') → P (n + 1) l') :
    ∀ (ins : List (Heap × Workout)) (n : Nat) (list final : WorkoutList), P n list →
      insertAll ins list = some final → P (n + ins.length) final
  | [], n, list, final, hP, h => by
    simp only [insertAll, Option.some.injEq] at h
    subst h
    exact hP
  | (heap, input) :: rest, n, list, final, hP, h => by
    obtain ⟨l1, h1, h2⟩ := insertAll_cons_some heap input rest list final h
    have := insertAll_inv P step rest (n + 1) l1 final (step n heap input list l1 hP h1) h2
    simpa [Nat.add_assoc, Nat.add_comm 1] using this

theorem insertAll_append (pre post : List (Heap × Workout)) :
    ∀ (list final : WorkoutList), insertAll (pre ++ post) list = some final →
      ∃ mid, insertAll pre list = some mid ∧ insertAll post mid = some final := by
  induction pre with
  | nil => intro list final h; exact ⟨list, rfl, h⟩
  | cons x pre ih =>
    intro list final h
    obtain ⟨heap, input⟩ := x
    obtain ⟨l1, h1, h2⟩ := insertAll_cons_some heap input (pre ++ post) list final h
    obtain ⟨mid, m1, m2⟩ := ih l1 final h2
    refine ⟨mid, ?_, m2⟩
    unfold insertAll
    simp only [h1, if_true]
    exact m1

theorem runShape_init (heap : Heap) (list : WorkoutList)
    (h : initializeWorkoutList heap INITIAL_CAPACITY = some list) : RunShape 0 list := by
  obtain ⟨_, e1, e2, e3⟩ := initializeWorkoutList_some heap INITIAL_CAPACITY list h
  unfold INITIAL_CAPACITY at e1 e3
  exact ⟨⟨by rw [e3, e1], by omega⟩, by rw [e2]; rfl, by omega, Or.inl e1, 0, by rw [e1]; rfl⟩

theorem runShape_step (n : Nat) (heap : Heap) (input : Workout) (l l' : WorkoutList)
    (hP : RunShape n l) (h : addWorkout heap input l = some (1, l')) : RunShape (n + 1) l' := by
  obtain ⟨hwf, hcount, hle, hhalf, k, hk⟩ := hP
  have hpos : 1 ≤ 2 ^ k := Nat.one_le_two_pow
  have h4 : 4 ≤ l.capacity := by rw [hk]; omega
  obtain ⟨s1, _, s3, _, _⟩ := addWorkout_some heap input l l' hwf h
  have hcap := addWorkout_capacity heap input l l' hwf (by omega) (by omega) h4
    (by rw [hcount]; exact hhalf) h
  by_cases hfull : l.count = l.capacity
  · rw [if_pos hfull] at hcap
    refine ⟨s3, by rw [s1, hcount]; push_cast; rfl, by push_cast; omega,
      Or.inr (by push_cast; omega), k + 1, ?_⟩
    rw [hcap, hk, pow_succ]
    push_cast
    ring
  · rw [if_neg hfull] at hcap
    refine ⟨s3, by rw [s1, hcount]; push_cast; rfl, by push_cast; omega, ?_, k, by rw [hcap, hk]⟩
    rcases hhalf with e | e
    · exact Or.inl (by rw [hcap, e])
    · exact Or.inr (by push_cast; omega)

theorem insertAll_shape (heap0 : Heap) (l0 l : WorkoutList) (ins : List (Heap × Workout))
    (hinit : initializeWorkoutList heap0 INITIAL_CAPACITY = some l0)
    (hrun : insertAll ins l0 = some l) : RunShape ins.length l := by
  have := insertAll_inv RunShape runShape_step ins 0 l0 l (runShape_init heap0 l0 hinit) hrun
  simpa using this

theorem runShape_minimal (n : Nat) (l : WorkoutList) (h : RunShape n l) (j : Nat)
    (hj : n ≤ 4 * 2 ^ j) : l.capacity ≤ ((4 * 2 ^ j : Nat) : Int) := by
  obtain ⟨_, _, _, hhalf, k, hk⟩ := h
  have hpos : 1 ≤ 2 ^ j := Nat.one_le_two_pow
  rcases hhalf with e | e
  · rw [e]; omega
  · rw [hk] at e ⊢
    have hlt : 2 ^ k < 2 ^ (j + 1) := by
      rw [pow_succ]; omega
    have hkj : k < j + 1 := (Nat.pow_lt_pow_iff_right (by decide)).mp hlt
    have hle : 2 ^ k ≤ 2 ^ j := Nat.pow_le_pow_right (by decide) (by omega)
    omega

theorem runShape_not_shrinkTest (n : Nat) (l : WorkoutList) (h : RunShape n l) :
    ¬ shrinkTest l := by
  obtain ⟨hwf, hcount, hle, hhalf, k, hk⟩ := h
  have hpos : 1 ≤ 2 ^ k := Nat.one_le_two_pow
  have hdiv4 : Int.tdiv l.capacity 4 = l.capacity / 4 :=
    Int.tdiv_eq_ediv (by omega) (by omega)
  unfold shrinkTest MIN_CAPACITY
  rw [hdiv4]
  omega

theorem resizeWorkoutList_granted (heap : Heap) (list : WorkoutList) (newCapacity : Int)
    (hgrant : ∀ n, heap n ≠ none) (h1 : list.count.toNat ≤ list.workouts.length)
    (h2 : list.count ≤ clampCapacity newCapacity) :
    ∃ list', resizeWorkoutList heap list newCapacity = some (1, list') := by
  obtain ⟨r, l1, hrs⟩ := resizeWorkoutList_defined heap list newCapacity h1 h2
  rcases resizeWorkoutList_some _ _ _ _ _ hrs with ⟨_, _, e⟩ | ⟨e0, _⟩
  · exfalso
    unfold malloc at e
    cases hh : heap (clampCapacity newCapacity).toNat with
    | none => exact hgrant _ hh
    | some junk => simp [hh] at e
  · subst e0
    exact ⟨l1, hrs⟩

theorem addWorkout_succeeds (heap : Heap) (input : Workout) (list : WorkoutList)
    (hwf : WellFormed list) (h0 : 0 ≤ list.count) (h1 : list.count ≤ list.capacity)
    (hgrant : ∀ n, heap n ≠ none)
    (hcap : list.count = list.capacity → list.capacity ≤ 1073741823) :
    ∃ list', addWorkout heap input list = some (1, list') := by
  unfold addWorkout
  by_cases hfull : list.count = list.capacity
  · rw [if_pos hfull]
    have hc := hcap hfull
    have hw : wrapInt (list.capacity * 2) = list.capacity * 2 :=
      wrapInt_of_inRange _ (by omega) (by omega)
    have hcl : clampCapacity (list.capacity * 2) = max (list.capacity * 2) 4 := by
      unfold clampCapacity MIN_CAPACITY; split_ifs <;> omega
    rw [hw]
    obtain ⟨l1, hrs⟩ := resizeWorkoutList_granted heap list (list.capacity * 2) hgrant
      (by have := hwf.1; omega) (by rw [hcl]; omega)
    simp only [hrs]
    rcases resizeWorkoutList_some _ _ _ _ _ hrs with ⟨e0, _, _⟩ | ⟨_, e1, e2, e3, e4, e5⟩
    · omega
    · rw [if_neg (by omega)]
      rw [hcl] at e1 e3
      exact addWorkoutStore_defined heap input l1
        ⟨by rw [e3, e1], by rw [e1]; omega⟩ (by rw [e2]; exact h0) (by rw [e1, e2]; omega)
  · rw [if_neg hfull]
    exact addWorkoutStore_defined heap input list hwf h0 (by omega)

/-- With allocators that grant every request, a run of inserts from a store in the shape
reached after `n` inserts succeeds as long as the number of records stays within `2^30`. -/
theorem insertAll_succeeds :
    ∀ (ins : List (Heap × Workout)) (n : Nat) (list : WorkoutList), RunShape n list →
      n + ins.length ≤ 1073741824 → (∀ p, p ∈ ins → ∀ m, p.1 m ≠ none) →
      ∃ final, insertAll ins list = some final
  | [], _, list, _, _, _ => ⟨list, rfl⟩
  | (heap, input) :: rest, n, list, hP, hn, hgrant => by
    obtain ⟨hwf, hcount, hle, hhalf, k, hk⟩ := hP
    simp only [List.length_cons] at hn
    obtain ⟨l1, h1⟩ := addWorkout_succeeds heap input list hwf (by omega) (by omega)
      (hgrant (heap, input) (List.mem_cons_self _ _))
      (fun hfull => by
        have hlt : 4 * 2 ^ k < 4 * 2 ^ 28 := by
          have : (4 * 2 ^ 28 : Nat) = 1073741824 := by norm_num
          omega
        have hkk : 2 ^ k < 2 ^ 28 := by omega
        have hk28 : k < 28 := (Nat.pow_lt_pow_iff_right (by decide)).mp hkk
        have hle27 : 2 ^ k ≤ 2 ^ 27 := Nat.pow_le_pow_right (by decide) (by omega)
        have : (2 ^ 27 : Nat) = 134217728 := by norm_num
        omega)
    obtain ⟨final, hf⟩ := insertAll_succeeds rest (n + 1) l1
      (runShape_step n heap input list l1 ⟨hwf, hcount, hle, hhalf, k, hk⟩ h1) (by omega)
      (fun p hp => hgrant p (List.mem_cons_of_mem _ hp))
    refine ⟨final, ?_⟩
    unfold insertAll
    simp only [h1, if_true]
    exact hf

theorem addWorkout_capacity_small (heap : Heap) (input : Workout) (list list' : WorkoutList)
    (hwf : WellFormed list) (h0 : 0 ≤ list.count) (h1 : list.count < list.capacity)
    (h4 : list.capacity ≤ 4) (h : addWorkout heap input list = some (1, list')) :
    list'.capacity = list.capacity := by
  unfold addWorkout at h
  rw [if_neg (by omega)] at h
  have hplain := addWorkoutStore_plain heap input list hwf h0 h1 (by omega)
  rw [hplain] at h
  simp only [Option.some.injEq, Prod.mk.injEq, true_and] at h
  rw [← h]

theorem resizeWorkoutList_refused (heap : Heap) (list : WorkoutList) (newCapacity : Int)
    (hfail : malloc heap (clampCapacity newCapacity).toNat = none) :
    resizeWorkoutList heap list newCapacity = some (0, list) := by
  unfold resizeWorkoutList
  dsimp only
  have hcl : (if newCapacity < MIN_CAPACITY then MIN_CAPACITY else newCapacity) =
      clampCapacity newCapacity := rfl
  rw [hcl, hfail]

theorem floorShape_init (heap : Heap) (c : Int) (list : WorkoutList) (hc : c ≤ 2147483647)
    (h : initializeWorkoutList heap c = some list) : FloorShape c list := by
  obtain ⟨e0, e1, e2, e3⟩ := initializeWorkoutList_some heap c list h
  exact ⟨⟨by rw [e3, e1], by rw [e1]; exact hc⟩, by rw [e2], by rw [e1, e2]; exact e0,
    Or.inr e1, fun _ => Or.inl e1⟩

theorem floorShape_step (c : Int) (heap : Heap) (input : Workout) (l l' : WorkoutList)
    (hP : FloorShape c l) (h : addWorkout heap input l = some (1, l')) : FloorShape c l' := by
  obtain ⟨hwf, h0, h1, hfloor, hkeep⟩ := hP
  obtain ⟨s1, _, s3, s4, s5⟩ := addWorkout_some heap input l l' hwf h
  have hcases : 4 ≤ l.capacity ∨ l.count = l.capacity ∨
      (l.count < l.capacity ∧ l.capacity ≤ 4) := by omega
  have hfloor' : (4 ≤ l.capacity ∨ l.count = l.capacity) → 4 ≤ l'.capacity := by
    rintro (h4 | hfull)
    · exact s5 h4
    · exact addWorkout_floor heap input l l' hwf hfull h
  refine ⟨s3, by omega, s4, ?_, fun hc3 => ?_⟩
  · rcases hcases with h4 | hfull | ⟨hlt, hle⟩
    · exact Or.inl (hfloor' (Or.inl h4))
    · exact Or.inl (hfloor' (Or.inr hfull))
    · have hsame := addWorkout_capacity_small heap input l l' hwf h0 hlt hle h
      rcases hfloor with h4 | e
      · exact Or.inl (by omega)
      · exact Or.inr (by omega)
  · rcases hkeep hc3 with e | hgt
    · by_cases hfull : l.count = l.capacity
      · exact Or.inr (by omega)
      · have hsame := addWorkout_capacity_small heap input l l' hwf h0 (by omega) (by omega) h
        exact Or.inl (by omega)
    · exact Or.inr (by omega)

/-! ## The claims -/

/-- C1: for every store, after `selectionSortByDuration` the records are in ascending order
of duration: for every adjacent pair of positions `(i, i + 1)` with `i + 1 < count`,
`workouts[i].duration ≤ workouts[i + 1].duration`.  The store is any store whose records
lie inside its block. -/
theorem selectionSortByDuration_sorted (list : WorkoutList)
    (hblock : list.count ≤ (list.workouts.length : Int)) (i : Nat)
    (hi : (i : Int) + 1 < (selectionSortByDuration list).count) :
    (slot (selectionSortByDuration list).workouts i).duration ≤
      (slot (selectionSortByDuration list).workouts (i + 1)).duration := by
  have hc : (i : Int) + 1 < list.count := hi
  exact (selectionSort_inv list hblock).2.2 i (i + 1) (by omega) (Nat.le_succ i) (by omega)

/-- Concrete instance of C1 on `sampleStore` at the first pair of positions. -/
theorem selectionSortByDuration_sorted_witness :
    sampleStore.count ≤ (sampleStore.workouts.length : Int) ∧
      ((0 : Nat) : Int) + 1 < (selectionSortByDuration sampleStore).count ∧
      (slot (selectionSortByDuration sampleStore).workouts 0).duration ≤
        (slot (selectionSortByDuration sampleStore).workouts (0 + 1)).duration :=
  ⟨by decide, by decide, selectionSortByDuration_sorted sampleStore (by decide) 0 (by decide)⟩

/-- C2: for every store, after `bubbleSortByCalories` the records are in ascending order of
`calories_burned`: for every adjacent pair of positions `(i, i + 1)` with `i + 1 < count`,
`workouts[i].calories_burned ≤ workouts[i + 1].calories_burned`. -/
theorem bubbleSortByCalories_sorted (list : WorkoutList)
    (hblock : list.count ≤ (list.workouts.length : Int)) (i : Nat)
    (hi : (i : Int) + 1 < (bubbleSortByCalories list).count) :
    (slot (bubbleSortByCalories list).workouts i).calories_burned ≤
      (slot (bubbleSortByCalories list).workouts (i + 1)).calories_burned := by
  have hc : (i : Int) + 1 < list.count := hi
  exact (bubbleSort_inv list hblock).2.2 i (i + 1) (Nat.le_succ i) (by omega) (by omega)

/-- Concrete instance of C2 on `sampleStore` at the first pair of positions. -/
theorem bubbleSortByCalories_sorted_witness :
    sampleStore.count ≤ (sampleStore.workouts.length : Int) ∧
      ((0 : Nat) : Int) + 1 < (bubbleSortByCalories sampleStore).count ∧
      (slot (bubbleSortByCalories sampleStore).workouts 0).calories_burned ≤
        (slot (bubbleSortByCalories sampleStore).workouts (0 + 1)).calories_burned :=
  ⟨by decide, by decide, bubbleSortByCalories_sorted sampleStore (by decide) 0 (by decide)⟩

/-- C3: `selectionSortByDuration` only permutes the records: the multiset of whole records
in positions `0 .. count - 1` after the sort equals the multiset before it, and `count`
is unchanged. -/
theorem selectionSortByDuration_permutation (list : WorkoutList)
    (hblock : list.count ≤ (list.workouts.length : Int)) :
    (selectionSortByDuration list).count = list.count ∧
      Multiset.ofList (records (selectionSortByDuration list)) =
        Multiset.ofList (records list) :=
  ⟨rfl, Multiset.coe_eq_coe.mpr (selectionSort_inv list hblock).2.1⟩

/-- Concrete instance of C3 on `sampleStore`. -/
theorem selectionSortByDuration_permutation_witness :
    sampleStore.count ≤ (sampleStore.workouts.length : Int) ∧
      (selectionSortByDuration sampleStore).count = sampleStore.count ∧
      Multiset.ofList (records (selectionSortByDuration sampleStore)) =
        Multiset.ofList (records sampleStore) :=
  ⟨by decide, selectionSortByDuration_permutation sampleStore (by decide)⟩

/-- C4: `bubbleSortByCalories` only permutes the records: the multiset of whole records in
positions `0 .. count - 1` after the sort equals the multiset before it, and `count` is
unchanged. -/
theorem bubbleSortByCalories_permutation (list : WorkoutList)
    (hblock : list.count ≤ (list.workouts.length : Int)) :
    (bubbleSortByCalories list).count = list.count ∧
      Multiset.ofList (records (bubbleSortByCalories list)) =
        Multiset.ofList (records list) :=
  ⟨rfl, Multiset.coe_eq_coe.mpr (bubbleSort_inv list hblock).2.1⟩

/-- Concrete instance of C4 on `sampleStore`. -/
theorem bubbleSortByCalories_permutation_witness :
    sampleStore.count ≤ (sampleStore.workouts.length : Int) ∧
      (bubbleSortByCalories sampleStore).count = sampleStore.count ∧
      Multiset.ofList (records (bubbleSortByCalories sampleStore)) =
        Multiset.ofList (records sampleStore) :=
  ⟨by decide, bubbleSortByCalories_permutation sampleStore (by decide)⟩

/-- C5: on a store sorted ascending by duration, `binarySearchByDuration` returns for a
target that some record has an index `i` with `0 ≤ i < count` and
`workouts[i].duration = target`, and for a target that no record has it returns `-1`.
In both cases the loop ends within its fuel. -/
theorem binarySearchByDuration_correct (list : WorkoutList) (target : Int)
    (hsorted : SortedByDuration list) :
    ((∃ k : Nat, (k : Int) < list.count ∧ (slot list.workouts k).duration = target) →
        ∃ i : Nat, binarySearchByDuration list target = some (i : Int) ∧
          (i : Int) < list.count ∧ (slot list.workouts i).duration = target) ∧
      ((¬ ∃ k : Nat, (k : Int) < list.count ∧ (slot list.workouts k).duration = target) →
        binarySearchByDuration list target = some (-1)) := by
  obtain ⟨r, hr, hcase⟩ := binarySearch_spec list target hsorted
  constructor
  · rintro ⟨k, hk, hdur⟩
    rcases hcase with ⟨_, hnone⟩ | ⟨h0, h1, h2⟩
    · exact absurd hdur (hnone k hk)
    · refine ⟨r.toNat, ?_, by omega, h2⟩
      rw [hr, Int.toNat_of_nonneg h0]
  · intro hno
    rcases hcase with ⟨hm, _⟩ | ⟨h0, h1, h2⟩
    · rw [hr, hm]
    · exact absurd ⟨r.toNat, by omega, h2⟩ hno

/-- The store `sortedStore` is sorted ascending by duration. -/
theorem sortedStore_sorted : SortedByDuration sortedStore := by
  intro i hi
  have h3 : i < 3 := by
    have : sortedStore.count = 4 := rfl
    omega
  interval_cases i <;> decide

/-- Concrete instance of C5 on `sortedStore` with target 30. -/
theorem binarySearchByDuration_correct_witness :
    SortedByDuration sortedStore ∧
      ((∃ k : Nat, (k : Int) < sortedStore.count ∧
          (slot sortedStore.workouts k).duration = 30) →
        ∃ i : Nat, binarySearchByDuration sortedStore 30 = some (i : Int) ∧
          (i : Int) < sortedStore.count ∧ (slot sortedStore.workouts i).duration = 30) ∧
      ((¬ ∃ k : Nat, (k : Int) < sortedStore.count ∧
          (slot sortedStore.workouts k).duration = 30) →
        binarySearchByDuration sortedStore 30 = some (-1)) :=
  ⟨sortedStore_sorted, binarySearchByDuration_correct sortedStore 30 sortedStore_sorted⟩

/-- C6: the records printed by `linearSearchByType` are exactly the records of the store
whose `type` string equals the query string, each once and in store order; in particular
no record is printed when none matches. -/
theorem linearSearchByType_emits_matches (list : WorkoutList) (type : List Nat)
    (hblock : list.count ≤ (list.workouts.length : Int)) :
    emitted (linearSearchByType list type) =
      (records list).filter (fun w => decide (cstr w.type = cstr type)) :=
  linearSearch_emitted list type hblock

/-- Concrete instance of C6 on `sampleStore` with the query `run`. -/
theorem linearSearchByType_emits_matches_witness :
    sampleStore.count ≤ (sampleStore.workouts.length : Int) ∧
      emitted (linearSearchByType sampleStore [114, 117, 110, 0]) =
        (records sampleStore).filter
          (fun w => decide (cstr w.type = cstr [114, 117, 110, 0])) :=
  ⟨by decide, linearSearchByType_emits_matches sampleStore [114, 117, 110, 0] (by decide)⟩

/-- C7: insert preserves the store invariant: from a store with `0 ≤ count ≤ capacity` and
`capacity ≥ MIN_CAPACITY`, a successful `addWorkout` (return value `1`, whichever of the
growth path, the shrink path or neither it takes) leaves a store with
`count ≤ capacity` and `capacity ≥ MIN_CAPACITY`, whose block again has `capacity` slots. -/
theorem addWorkout_preserves_invariant (heap : Heap) (input : Workout)
    (list list' : WorkoutList) (hwf : WellFormed list) (h0 : 0 ≤ list.count)
    (h1 : list.count ≤ list.capacity) (h4 : MIN_CAPACITY ≤ list.capacity)
    (hadd : addWorkout heap input list = some (1, list')) :
    list'.count ≤ list'.capacity ∧ MIN_CAPACITY ≤ list'.capacity ∧ 0 ≤ list'.count ∧
      WellFormed list' := by
  obtain ⟨a, _, c, d, e⟩ := addWorkout_some heap input list list' hwf hadd
  exact ⟨d, e h4, by omega, c⟩

/-- Concrete instance of C7: an insert into the full `sampleStore`, which grows it. -/
theorem addWorkout_preserves_invariant_witness :
    (WellFormed sampleStore ∧ 0 ≤ sampleStore.count ∧
        sampleStore.count ≤ sampleStore.capacity ∧ MIN_CAPACITY ≤ sampleStore.capacity) ∧
      addWorkout grantAll (sampleWorkout 25 100) sampleStore = some (1, grownStore) ∧
      grownStore.count ≤ grownStore.capacity ∧ MIN_CAPACITY ≤ grownStore.capacity ∧
      0 ≤ grownStore.count ∧ WellFormed grownStore :=
  ⟨⟨⟨by decide, by decide⟩, by decide, by decide, by decide⟩, by decide,
    addWorkout_preserves_invariant grantAll (sampleWorkout 25 100) sampleStore grownStore
      ⟨by decide, by decide⟩ (by decide) (by decide) (by decide) (by decide)⟩


/-- C8: a successful `addWorkout` of a record increases `count` by exactly one, puts the
record at the last position (index old `count`) and leaves the records at positions
`0 .. old count - 1` unchanged and in the same order, also when the insert reallocates
the storage. -/
theorem addWorkout_appends (heap : Heap) (input : Workout) (list list' : WorkoutList)
    (hwf : WellFormed list) (h0 : 0 ≤ list.count) (h1 : list.count ≤ list.capacity)
    (hadd : addWorkout heap input list = some (1, list')) :
    list'.count = list.count + 1 ∧ slot list'.workouts list.count.toNat = input ∧
      (∀ i : Nat, (i : Int) < list.count → slot list'.workouts i = slot list.workouts i) ∧
      records list' = records list ++ [input] := by
  obtain ⟨a, b, c, d, _⟩ := addWorkout_some heap input list list' hwf hadd
  have hlen : (records list).length = list.count.toNat := by
    unfold records
    rw [List.length_take]
    have := hwf.1
    omega
  have hget : ∀ k, k < list.count.toNat + 1 →
      list'.workouts[k]? = (records list ++ [input])[k]? := by
    intro k hk
    rw [← b]
    unfold records
    rw [a, show (list.count + 1).toNat = list.count.toNat + 1 by omega,
      List.getElem?_take, if_pos hk]
  refine ⟨a, ?_, ?_, b⟩
  · unfold slot
    rw [List.getD_eq_getElem?_getD, hget _ (Nat.lt_succ_self _),
      List.getElem?_append_right (by omega), hlen]
    simp
  · intro i hi
    unfold slot
    rw [List.getD_eq_getElem?_getD, List.getD_eq_getElem?_getD, hget i (by omega),
      List.getElem?_append_left (by omega)]
    unfold records
    rw [List.getElem?_take, if_pos (by omega)]

/-- Concrete instance of C8: an insert into the full `sampleStore`, which reallocates. -/
theorem addWorkout_appends_witness :
    (WellFormed sampleStore ∧ 0 ≤ sampleStore.count ∧
        sampleStore.count ≤ sampleStore.capacity) ∧
      addWorkout grantAll (sampleWorkout 25 100) sampleStore = some (1, grownStore) ∧
      grownStore.count = sampleStore.count + 1 ∧
      slot grownStore.workouts sampleStore.count.toNat = sampleWorkout 25 100 ∧
      (∀ i : Nat, (i : Int) < sampleStore.count →
        slot grownStore.workouts i = slot sampleStore.workouts i) ∧
      records grownStore = records sampleStore ++ [sampleWorkout 25 100] :=
  ⟨⟨⟨by decide, by decide⟩, by decide, by decide⟩, by decide,
    addWorkout_appends grantAll (sampleWorkout 25 100) sampleStore grownStore
      ⟨by decide, by decide⟩ (by decide) (by decide) (by decide)⟩

/-- C9: when the store is full (`count == capacity`) and the allocation for the growth
fails, `addWorkout` returns the failure signal `0` and the store is unchanged: same
capacity, same count, same block. -/
theorem addWorkout_growth_failure (heap : Heap) (input : Workout) (list : WorkoutList)
    (hfull : list.count = list.capacity)
    (hfail : malloc heap (clampCapacity (wrapInt (list.capacity * 2))).toNat = none) :
    addWorkout heap input list = some (0, list) := by
  have hrs : resizeWorkoutList heap list (wrapInt (list.capacity * 2)) = some (0, list) := by
    unfold resizeWorkoutList
    dsimp only
    have hcl : (if wrapInt (list.capacity * 2) < MIN_CAPACITY then MIN_CAPACITY
        else wrapInt (list.capacity * 2)) = clampCapacity (wrapInt (list.capacity * 2)) := rfl
    rw [hcl, hfail]
  unfold addWorkout
  rw [if_pos hfull, hrs]
  simp

/-- Concrete instance of C9: the full `sampleStore` and an allocator that refuses. -/
theorem addWorkout_growth_failure_witness :
    sampleStore.count = sampleStore.capacity ∧
      malloc refuseAll (clampCapacity (wrapInt (sampleStore.capacity * 2))).toNat = none ∧
      addWorkout refuseAll (sampleWorkout 25 100) sampleStore = some (0, sampleStore) :=
  ⟨by decide, by decide,
    addWorkout_growth_failure refuseAll (sampleWorkout 25 100) sampleStore (by decide)
      (by decide)⟩

/-- The shrink path on a concrete store: inserting into the empty `spareStore` (capacity 8)
with an allocator that grants the request halves the capacity to 4. -/
theorem addWorkout_shrink_example :
    addWorkout grantAll (sampleWorkout 25 100) spareStore =
      some (1, { workouts := sampleWorkout 25 100 :: List.replicate 3 default,
                 capacity := 4, count := 1 }) := by
  decide

/-- C10, evaluated on the code: inserting into the empty `spareStore` (capacity 8) makes
`count = 1 < 8 / 4` with `capacity > MIN_CAPACITY`, so the shrink is attempted; the
allocator refuses it, and `addWorkout` still returns `1`, with the record stored and the
capacity left at 8. -/
theorem addWorkout_shrink_failure_returns_one :
    spareStore.count + 1 < Int.tdiv spareStore.capacity 4 ∧
      spareStore.capacity > MIN_CAPACITY ∧
      malloc refuseAll (clampCapacity (Int.tdiv spareStore.capacity 2)).toNat = none ∧
      addWorkout refuseAll (sampleWorkout 25 100) spareStore =
        some (1, { workouts := sampleWorkout 25 100 :: List.replicate 7 default,
                   capacity := 8, count := 1 }) := by
  decide

/-- C10 as amended: when an insert triggers the shrink (after the insertion
`count < capacity / 4` and `capacity > MIN_CAPACITY`) and the allocation for the shrink
fails, the failure is not reported: `addWorkout` returns the success signal `1`, with the
record stored at the old `count`, `count` increased by one and the capacity unchanged. -/
theorem addWorkout_shrink_failure_unreported (heap : Heap) (input : Workout)
    (list : WorkoutList) (hwf : WellFormed list) (h0 : 0 ≤ list.count)
    (h1 : list.count ≤ list.capacity)
    (htest : list.count + 1 < Int.tdiv list.capacity 4 ∧ list.capacity > MIN_CAPACITY)
    (hfail : malloc heap (clampCapacity (Int.tdiv list.capacity 2)).toNat = none) :
    addWorkout heap input list =
      some (1, { workouts := list.workouts.set list.count.toNat input,
                 capacity := list.capacity, count := list.count + 1 }) := by
  obtain ⟨hlen, hmax⟩ := hwf
  have hdiv4 : Int.tdiv list.capacity 4 = list.capacity / 4 :=
    Int.tdiv_eq_ediv (by omega) (by omega)
  have hlt : list.count < list.capacity := by
    rw [hdiv4] at htest; omega
  unfold addWorkout
  rw [if_neg (by omega)]
  unfold addWorkoutStore
  rw [if_pos ⟨h0, by omega⟩]
  dsimp only
  rw [wrapInt_of_inRange _ (by omega) (by omega), if_pos htest,
    resizeWorkoutList_refused heap _ _ hfail]

/-- Concrete instance of the amended C10: an insert into `wideStore` (twelve slots, one
record) with an allocator that refuses the shrink. -/
theorem addWorkout_shrink_failure_unreported_witness :
    (WellFormed wideStore ∧ 0 ≤ wideStore.count ∧ wideStore.count ≤ wideStore.capacity) ∧
      (wideStore.count + 1 < Int.tdiv wideStore.capacity 4 ∧
        wideStore.capacity > MIN_CAPACITY) ∧
      malloc refuseAll (clampCapacity (Int.tdiv wideStore.capacity 2)).toNat = none ∧
      addWorkout refuseAll (sampleWorkout 25 100) wideStore =
        some (1, { workouts := wideStore.workouts.set wideStore.count.toNat
                     (sampleWorkout 25 100),
                   capacity := wideStore.capacity, count := wideStore.count + 1 }) :=
  ⟨⟨⟨by decide, by decide⟩, by decide, by decide⟩, ⟨by decide, by decide⟩, by decide,
    addWorkout_shrink_failure_unreported refuseAll (sampleWorkout 25 100) wideStore
      ⟨by decide, by decide⟩ (by decide) (by decide) ⟨by decide, by decide⟩ (by decide)⟩

/-- C11: menu option 6 (`selectionSortByDuration` followed by `binarySearchByDuration`) is a
correct search on any store, sorted or not: when some record of the store has the target
duration the result is an index into the re-sorted store whose record has that duration,
and the result is `-1` exactly when no record has it. -/
theorem searchByDurationOption_correct (list : WorkoutList) (target : Int)
    (hblock : list.count ≤ (list.workouts.length : Int)) :
    ((∃ k : Nat, (k : Int) < list.count ∧ (slot list.workouts k).duration = target) →
        ∃ i : Nat, (searchByDurationOption list target).2 = some (i : Int) ∧
          (i : Int) < (searchByDurationOption list target).1.count ∧
          (slot (searchByDurationOption list target).1.workouts i).duration = target) ∧
      ((searchByDurationOption list target).2 = some (-1) ↔
        ¬ ∃ k : Nat, (k : Int) < list.count ∧ (slot list.workouts k).duration = target) := by
  have hinv := selectionSort_inv list hblock
  have hsorted : SortedByDuration (selectionSortByDuration list) := by
    intro i hi
    have hc : (i : Int) + 1 < list.count := hi
    exact hinv.2.2 i (i + 1) (by omega) (Nat.le_succ i) (by omega)
  have hlen : (selectionSortByDuration list).workouts.length = list.workouts.length := hinv.1
  have hcount : (selectionSortByDuration list).count = list.count := rfl
  have hiff : (∃ k : Nat, (k : Int) < list.count ∧
        (slot (selectionSortByDuration list).workouts k).duration = target) ↔
      ∃ k : Nat, (k : Int) < list.count ∧ (slot list.workouts k).duration = target := by
    have e1 := exists_slot_iff_mem_take (selectionSortByDuration list).workouts
      list.count.toNat (by omega) (fun w => w.duration = target)
    have e2 := exists_slot_iff_mem_take list.workouts list.count.toNat (by omega)
      (fun w => w.duration = target)
    have e3 : (∃ w, w ∈ (selectionSortByDuration list).workouts.take list.count.toNat ∧
          w.duration = target) ↔
        ∃ w, w ∈ list.workouts.take list.count.toNat ∧ w.duration = target :=
      ⟨fun ⟨w, hw, hd⟩ => ⟨w, hinv.2.1.mem_iff.mp hw, hd⟩,
        fun ⟨w, hw, hd⟩ => ⟨w, hinv.2.1.mem_iff.mpr hw, hd⟩⟩
    constructor
    · rintro ⟨k, hk, hd⟩
      obtain ⟨k', hk', hd'⟩ := e2.mpr (e3.mp (e1.mp ⟨k, by omega, hd⟩))
      exact ⟨k', by omega, hd'⟩
    · rintro ⟨k, hk, hd⟩
      obtain ⟨k', hk', hd'⟩ := e1.mpr (e3.mpr (e2.mp ⟨k, by omega, hd⟩))
      exact ⟨k', by omega, hd'⟩
  obtain ⟨r, hr, hcase⟩ := binarySearch_spec (selectionSortByDuration list) target hsorted
  rw [hcount] at hcase
  show (_ → ∃ i : Nat, binarySearchByDuration (selectionSortByDuration list) target = _ ∧
      (i : Int) < list.count ∧ _) ∧
    (binarySearchByDuration (selectionSortByDuration list) target = some (-1) ↔ _)
  rw [hr]
  constructor
  · intro hex
    rcases hcase with ⟨_, hnone⟩ | ⟨h0, h1, h2⟩
    · obtain ⟨k, hk, hd⟩ := hiff.mpr hex
      exact absurd hd (hnone k hk)
    · exact ⟨r.toNat, by rw [Int.toNat_of_nonneg h0], by omega, h2⟩
  · constructor
    · intro hm
      have hm1 : r = -1 := Option.some.inj hm
      rcases hcase with ⟨_, hnone⟩ | ⟨h0, h1, h2⟩
      · intro hex
        obtain ⟨k, hk, hd⟩ := hiff.mpr hex
        exact hnone k hk hd
      · omega
    · intro hno
      rcases hcase with ⟨hm, _⟩ | ⟨h0, h1, h2⟩
      · rw [hm]
      · exact absurd (hiff.mp ⟨r.toNat, by omega, h2⟩) hno

/-- Concrete instance of C11 on the unsorted `sampleStore` with target 30. -/
theorem searchByDurationOption_correct_witness :
    sampleStore.count ≤ (sampleStore.workouts.length : Int) ∧
      ((∃ k : Nat, (k : Int) < sampleStore.count ∧
          (slot sampleStore.workouts k).duration = 30) →
        ∃ i : Nat, (searchByDurationOption sampleStore 30).2 = some (i : Int) ∧
          (i : Int) < (searchByDurationOption sampleStore 30).1.count ∧
          (slot (searchByDurationOption sampleStore 30).1.workouts i).duration = 30) ∧
      ((searchByDurationOption sampleStore 30).2 = some (-1) ↔
        ¬ ∃ k : Nat, (k : Int) < sampleStore.count ∧
          (slot sampleStore.workouts k).duration = 30) :=
  ⟨by decide, searchByDurationOption_correct sampleStore 30 (by decide)⟩

/-- C12: inserting records with durations 30, 10, 45, 20, in that order, into the store
created by `initializeWorkoutList` with `INITIAL_CAPACITY` succeeds; after
`selectionSortByDuration` the durations read 10, 20, 30, 45; `binarySearchByDuration`
then returns index 2 for the target 30 and `-1` for the target 99. -/
theorem scenario_insert_sort_search (heap0 h1 h2 h3 h4 : Heap) (w1 w2 w3 w4 : Workout)
    (l0 : WorkoutList) (hinit : initializeWorkoutList heap0 INITIAL_CAPACITY = some l0)
    (d1 : w1.duration = 30) (d2 : w2.duration = 10) (d3 : w3.duration = 45)
    (d4 : w4.duration = 20) :
    ∃ l, insertAll [(h1, w1), (h2, w2), (h3, w3), (h4, w4)] l0 = some l ∧
      (records (selectionSortByDuration l)).map (fun w => w.duration) = [10, 20, 30, 45] ∧
      binarySearchByDuration (selectionSortByDuration l) 30 = some 2 ∧
      binarySearchByDuration (selectionSortByDuration l) 99 = some (-1) := by
  obtain ⟨_, e1, e2, e3⟩ := initializeWorkoutList_some heap0 INITIAL_CAPACITY l0 hinit
  obtain ⟨ws, cap, cnt⟩ := l0
  simp only [INITIAL_CAPACITY] at e1 e2 e3
  subst e1 e2
  have hlen : ws.length = 4 := by omega
  rcases ws with _ | ⟨a, _ | ⟨b, _ | ⟨c, _ | ⟨d, _ | ⟨e, t⟩⟩⟩⟩⟩ <;>
    simp only [List.length_cons, List.length_nil] at hlen <;> try omega
  have hsorted : selectionSortByDuration ⟨[w1, w2, w3, w4], 4, 4⟩ =
      ⟨[w2, w4, w1, w3], 4, 4⟩ := by
    simp [selectionSortByDuration, forRange, selectionStep, selectionMinIdx, swap, slot,
      d1, d2, d3, d4]
  refine ⟨⟨[w1, w2, w3, w4], 4, 4⟩, ?_, ?_, ?_, ?_⟩
  · simp [insertAll, addWorkout, addWorkoutStore, wrapInt, MIN_CAPACITY, Int.tdiv]
  · rw [hsorted]; simp [records, d1, d2, d3, d4]
  · rw [hsorted]
    simp [binarySearchByDuration, binarySearchLoop, slot, Int.tdiv, d1, d2, d3, d4]
  · rw [hsorted]
    simp [binarySearchByDuration, binarySearchLoop, slot, Int.tdiv, d1, d2, d3, d4]

/-- Concrete instance of C12: the four sample records inserted into `emptyStore`. -/
theorem scenario_insert_sort_search_witness :
    initializeWorkoutList grantAll INITIAL_CAPACITY = some emptyStore ∧
      (sampleWorkout 30 300).duration = 30 ∧ (sampleWorkout 10 120).duration = 10 ∧
      (sampleWorkout 45 90).duration = 45 ∧ (sampleWorkout 20 200).duration = 20 ∧
      ∃ l, insertAll [(grantAll, sampleWorkout 30 300), (grantAll, sampleWorkout 10 120),
          (grantAll, sampleWorkout 45 90), (grantAll, sampleWorkout 20 200)] emptyStore =
            some l ∧
        (records (selectionSortByDuration l)).map (fun w => w.duration) = [10, 20, 30, 45] ∧
        binarySearchByDuration (selectionSortByDuration l) 30 = some 2 ∧
        binarySearchByDuration (selectionSortByDuration l) 99 = some (-1) :=
  ⟨by decide, rfl, rfl, rfl, rfl,
    scenario_insert_sort_search grantAll grantAll grantAll grantAll grantAll
      (sampleWorkout 30 300) (sampleWorkout 10 120) (sampleWorkout 45 90)
      (sampleWorkout 20 200) emptyStore (by decide) rfl rfl rfl rfl⟩

/-- C13: starting from `initializeWorkoutList` with initial capacity 4, the capacity is 4
after each of the first four successful inserts and is 8, with `count = 5`, after the
fifth. -/
theorem insertAll_five_capacity (heap0 : Heap) (l0 l : WorkoutList)
    (ins : List (Heap × Workout))
    (hinit : initializeWorkoutList heap0 4 = some l0) (hrun : insertAll ins l0 = some l) :
    (ins.length ≤ 4 → l.capacity = 4 ∧ l.count = (ins.length : Int)) ∧
      (ins.length = 5 → l.capacity = 8 ∧ l.count = 5) := by
  obtain ⟨hwf, hcount, hle, hhalf, k, hk⟩ := insertAll_shape heap0 l0 l ins hinit hrun
  have hcases : 4 * 2 ^ k = 4 ∨ 4 * 2 ^ k = 8 ∨ 16 ≤ 4 * 2 ^ k := by
    match k with
    | 0 => exact Or.inl rfl
    | 1 => exact Or.inr (Or.inl rfl)
    | k + 2 =>
      have hpos : 1 ≤ 2 ^ k := Nat.one_le_two_pow
      have : 2 ^ (k + 2) = 4 * 2 ^ k := by rw [pow_add]; ring
      exact Or.inr (Or.inr (by rw [this]; omega))
  constructor
  · intro h4
    exact ⟨by omega, hcount⟩
  · intro h5
    exact ⟨by omega, by rw [hcount, h5]; rfl⟩

/-- Concrete instance of C13: the five inserts of `fiveRun` into `emptyStore`. -/
theorem insertAll_five_capacity_witness :
    initializeWorkoutList grantAll 4 = some emptyStore ∧
      insertAll fiveRun emptyStore = some grownStore ∧
      (fiveRun.length ≤ 4 → grownStore.capacity = 4 ∧
        grownStore.count = (fiveRun.length : Int)) ∧
      (fiveRun.length = 5 → grownStore.capacity = 8 ∧ grownStore.count = 5) :=
  ⟨by decide, by decide,
    insertAll_five_capacity grantAll emptyStore grownStore fiveRun (by decide) (by decide)⟩

/-- C14, evaluated on the code: for the query `swim` the lines printed on the empty store
and on the non-empty `sampleStore`, none of whose records matches, are the same two
lines, so "none found" is not told apart from "store empty". -/
theorem linearSearchByType_empty_same_as_no_match :
    emptyStore.count = 0 ∧ 0 < sampleStore.count ∧
      (records sampleStore).filter
          (fun w => decide (cstr w.type = cstr [115, 119, 105, 109, 0])) = [] ∧
      linearSearchByType emptyStore [115, 119, 105, 109, 0] =
        linearSearchByType sampleStore [115, 119, 105, 109, 0] := by
  decide

/-- C14 as amended: on every store in which no record matches the query, empty or not,
`linearSearchByType` prints the header line followed by the line
`No workouts found of type: <query>`; and when some record matches, that line is not
printed. -/
theorem linearSearchByType_none_found (list : WorkoutList) (type : List Nat)
    (hblock : list.count ≤ (list.workouts.length : Int)) :
    ((records list).filter (fun w => decide (cstr w.type = cstr type)) = [] →
        linearSearchByType list type =
          [Output.header (cstr type), Output.noneFound (cstr type)]) ∧
      ((records list).filter (fun w => decide (cstr w.type = cstr type)) ≠ [] →
        Output.noneFound (cstr type) ∉ linearSearchByType list type) := by
  rw [linearSearchByType_eq list type hblock]
  constructor
  · intro he
    rw [he, if_pos rfl]
    rfl
  · intro hne
    rw [if_neg hne]
    simp

/-- Concrete instance of the amended C14 on `sampleStore` with the query `swim`. -/
theorem linearSearchByType_none_found_witness :
    sampleStore.count ≤ (sampleStore.workouts.length : Int) ∧
      ((records sampleStore).filter
            (fun w => decide (cstr w.type = cstr [115, 119, 105, 109, 0])) = [] →
        linearSearchByType sampleStore [115, 119, 105, 109, 0] =
          [Output.header (cstr [115, 119, 105, 109, 0]),
            Output.noneFound (cstr [115, 119, 105, 109, 0])]) ∧
      ((records sampleStore).filter
            (fun w => decide (cstr w.type = cstr [115, 119, 105, 109, 0])) ≠ [] →
        Output.noneFound (cstr [115, 119, 105, 109, 0]) ∉
          linearSearchByType sampleStore [115, 119, 105, 109, 0]) :=
  ⟨by decide, linearSearchByType_none_found sampleStore [115, 119, 105, 109, 0] (by decide)⟩

/-- C15, evaluated on the code: a store created with starting capacity 1 holds one record
after the first insert while its capacity is still 1, below the floor `MIN_CAPACITY`. -/
theorem insertAll_below_floor :
    initializeWorkoutList grantAll 1 = some singleSlotStore ∧
      insertAll [(grantAll, sampleWorkout 30 300)] singleSlotStore = some filledSlotStore ∧
      0 < filledSlotStore.count ∧ filledSlotStore.capacity < MIN_CAPACITY := by
  decide

/-- C15 as amended: for every store created empty by `initializeWorkoutList` with a
starting capacity `c ≥ 0` and extended by any sequence of successful inserts,
`count ≤ capacity` holds and, whenever `count > 0`, `capacity ≥ MIN_CAPACITY` holds,
unless the starting capacity is 1, 2 or 3 and `count ≤ c`; in that case the capacity is
still `c`. -/
theorem insertAll_floor (heap0 : Heap) (c : Int) (l0 l : WorkoutList)
    (ins : List (Heap × Workout)) (hc0 : 0 ≤ c) (hcint : c ≤ 2147483647)
    (hinit : initializeWorkoutList heap0 c = some l0) (hrun : insertAll ins l0 = some l) :
    l.count ≤ l.capacity ∧
      (0 < l.count → (c = 0 ∨ 4 ≤ c ∨ c < l.count) → MIN_CAPACITY ≤ l.capacity) ∧
      (1 ≤ c → c ≤ 3 → l.count ≤ c → l.capacity = c) := by
  have hshape := insertAll_inv (fun _ s => FloorShape c s)
    (fun _ heap input s s' hP h => floorShape_step c heap input s s' hP h) ins 0 l0 l
    (floorShape_init heap0 c l0 hcint hinit) hrun
  obtain ⟨_, _, h1, hfloor, hkeep⟩ := hshape
  unfold MIN_CAPACITY
  refine ⟨h1, fun hpos hc => ?_, fun _ hc3 hle => ?_⟩
  · rcases hfloor with h4 | e
    · exact h4
    · omega
  · rcases hkeep hc3 with e | hgt
    · exact e
    · omega

/-- Concrete instance of the amended C15: the two inserts of `twoRun` into
`singleSlotStore`, after which `count = 2` exceeds the starting capacity 1 and the
capacity is at the floor. -/
theorem insertAll_floor_witness :
    (0 : Int) ≤ 1 ∧ (1 : Int) ≤ 2147483647 ∧
      initializeWorkoutList grantAll 1 = some singleSlotStore ∧
      insertAll twoRun singleSlotStore = some regrownStore ∧
      regrownStore.count ≤ regrownStore.capacity ∧
      (0 < regrownStore.count → ((1 : Int) = 0 ∨ (4 : Int) ≤ 1 ∨ 1 < regrownStore.count) →
        MIN_CAPACITY ≤ regrownStore.capacity) ∧
      ((1 : Int) ≤ 1 → (1 : Int) ≤ 3 → regrownStore.count ≤ 1 →
        regrownStore.capacity = 1) :=
  ⟨by decide, by decide, by decide, by decide,
    insertAll_floor grantAll 1 singleSlotStore regrownStore twoRun (by decide) (by decide)
      (by decide) (by decide)⟩

/-- C16: for a requested `newCapacity` with `count ≤ max(newCapacity, 4)`, a successful
`resizeWorkoutList` (return value `1`) sets the capacity to
`max(newCapacity, MIN_CAPACITY)`, which is at least the floor 4, and leaves `count` and
the records at positions `0 .. count - 1` unchanged and in the same order. -/
theorem resizeWorkoutList_frame (heap : Heap) (list list' : WorkoutList) (newCapacity : Int)
    (hblock : list.count ≤ (list.workouts.length : Int))
    (hfit : list.count ≤ max newCapacity MIN_CAPACITY)
    (hres : resizeWorkoutList heap list newCapacity = some (1, list')) :
    list'.capacity = max newCapacity MIN_CAPACITY ∧ MIN_CAPACITY ≤ list'.capacity ∧
      list'.count = list.count ∧ records list' = records list := by
  have hcl : clampCapacity newCapacity = max newCapacity MIN_CAPACITY := by
    unfold clampCapacity MIN_CAPACITY; split_ifs <;> omega
  rcases resizeWorkoutList_some _ _ _ _ _ hres with ⟨e0, _, _⟩ | ⟨_, e1, e2, e3, e4, e5⟩
  · omega
  · rw [hcl] at e1
    refine ⟨e1, by rw [e1]; exact le_max_right _ _, e2, ?_⟩
    unfold records
    rw [e2]
    exact e5

/-- Concrete instance of C16: `sampleStore` (four records) resized to six slots. -/
theorem resizeWorkoutList_frame_witness :
    sampleStore.count ≤ (sampleStore.workouts.length : Int) ∧
      sampleStore.count ≤ max 6 MIN_CAPACITY ∧
      resizeWorkoutList grantAll sampleStore 6 = some (1, resizedStore) ∧
      resizedStore.capacity = max 6 MIN_CAPACITY ∧ MIN_CAPACITY ≤ resizedStore.capacity ∧
      resizedStore.count = sampleStore.count ∧ records resizedStore = records sampleStore :=
  ⟨by decide, by decide, by decide,
    resizeWorkoutList_frame grantAll sampleStore resizedStore 6 (by decide) (by decide)
      (by decide)⟩

/-- C17: `selectionSortByDuration` is not stable: in `tieStore`, whose records are pairwise
distinct, the records at positions 0 and 1 have the same duration, and after the sort the
record that was at position 0 stands at position 2, behind the record that was at
position 1. -/
theorem selectionSortByDuration_not_stable :
    ∃ (list : WorkoutList) (i j i' j' : Nat),
      list.count ≤ (list.workouts.length : Int) ∧ (records list).Nodup ∧
        i < j ∧ (j : Int) < list.count ∧
        (slot list.workouts i).duration = (slot list.workouts j).duration ∧
        slot list.workouts i ≠ slot list.workouts j ∧
        j' < i' ∧ (i' : Int) < list.count ∧
        slot (selectionSortByDuration list).workouts i' = slot list.workouts i ∧
        slot (selectionSortByDuration list).workouts j' = slot list.workouts j :=
  ⟨tieStore, 0, 1, 2, 1, by decide, by decide, by decide, by decide, by decide, by decide,
    by decide, by decide, by decide, by decide⟩

/-- C18: `bubbleSortByCalories` is stable: for every store and every value of
`calories_burned`, the records with that value stand after the sort in the same relative
order as before it: the sequence of the records with that value, read off positions
`0 .. count - 1`, is the same before and after the sort. -/
theorem bubbleSortByCalories_stable (list : WorkoutList) (calories : Int)
    (hblock : list.count ≤ (list.workouts.length : Int)) :
    (records (bubbleSortByCalories list)).filter
        (fun w => decide (w.calories_burned = calories)) =
      (records list).filter (fun w => decide (w.calories_burned = calories)) :=
  bubbleSort_filter calories list hblock

/-- Concrete instance of C18 on `calorieTieStore` for the value 200. -/
theorem bubbleSortByCalories_stable_witness :
    calorieTieStore.count ≤ (calorieTieStore.workouts.length : Int) ∧
      (records (bubbleSortByCalories calorieTieStore)).filter
          (fun w => decide (w.calories_burned = 200)) =
        (records calorieTieStore).filter (fun w => decide (w.calories_burned = 200)) :=
  ⟨by decide, bubbleSortByCalories_stable calorieTieStore 200 (by decide)⟩

/-- C19: after `n` successful inserts into the store created by `initializeWorkoutList`
with `INITIAL_CAPACITY`, `count = n` and the capacity is the smallest number of the form
`4 * 2^k` that is at least `n`; along the run the capacity never decreases and no store
reached satisfies the test of the shrink branch, so that branch is never taken.  A run of
successful inserts cannot leave the `int` range, since the insert into a full store of
`2^30` records is undefined. -/
theorem insertAll_capacity_shape (heap0 : Heap) (l0 l : WorkoutList)
    (ins : List (Heap × Workout))
    (hinit : initializeWorkoutList heap0 INITIAL_CAPACITY = some l0)
    (hrun : insertAll ins l0 = some l) :
    l.count = (ins.length : Int) ∧
      (∃ k : Nat, l.capacity = ((4 * 2 ^ k : Nat) : Int) ∧ ins.length ≤ 4 * 2 ^ k ∧
        ∀ j : Nat, ins.length ≤ 4 * 2 ^ j → 4 * 2 ^ k ≤ 4 * 2 ^ j) ∧
      (∀ pre post : List (Heap × Workout), ins = pre ++ post →
        ∃ mid, insertAll pre l0 = some mid ∧ mid.capacity ≤ l.capacity ∧ ¬ shrinkTest mid) ∧
      ¬ shrinkTest l := by
  have hshape := insertAll_shape heap0 l0 l ins hinit hrun
  obtain ⟨hwf, hcount, hle, hhalf, k, hk⟩ := hshape
  refine ⟨hcount, ⟨k, hk, by omega, fun j hj => ?_⟩, ?_,
    runShape_not_shrinkTest _ l (insertAll_shape heap0 l0 l ins hinit hrun)⟩
  · have := runShape_minimal _ l (insertAll_shape heap0 l0 l ins hinit hrun) j hj
    omega
  · intro pre post hsplit
    subst hsplit
    obtain ⟨mid, m1, m2⟩ := insertAll_append pre post l0 l hrun
    have hmid := insertAll_shape heap0 l0 mid pre hinit m1
    refine ⟨mid, m1, ?_, runShape_not_shrinkTest _ mid hmid⟩
    have hmin := runShape_minimal _ mid hmid k (by
      have : pre.length ≤ (pre ++ post).length := by simp
      omega)
    omega

/-- Concrete instance of C19: the five inserts of `fiveRun` into `emptyStore`. -/
theorem insertAll_capacity_shape_witness :
    initializeWorkoutList grantAll INITIAL_CAPACITY = some emptyStore ∧
      insertAll fiveRun emptyStore = some grownStore ∧
      grownStore.count = (fiveRun.length : Int) ∧
      (∃ k : Nat, grownStore.capacity = ((4 * 2 ^ k : Nat) : Int) ∧
        fiveRun.length ≤ 4 * 2 ^ k ∧
        ∀ j : Nat, fiveRun.length ≤ 4 * 2 ^ j → 4 * 2 ^ k ≤ 4 * 2 ^ j) ∧
      (∀ pre post : List (Heap × Workout), fiveRun = pre ++ post →
        ∃ mid, insertAll pre emptyStore = some mid ∧ mid.capacity ≤ grownStore.capacity ∧
          ¬ shrinkTest mid) ∧
      ¬ shrinkTest grownStore :=
  ⟨by decide, by decide,
    insertAll_capacity_shape grantAll emptyStore grownStore fiveRun (by decide) (by decide)⟩

/-- C20: `binarySearchByDuration` never reports a wrong hit, even on an unsorted store: for
every store and every target the loop ends within its fuel, and the result is either `-1`
or an index `i` with `0 ≤ i < count` and `workouts[i].duration = target`; hence the
result is `-1` whenever no record has the target duration. -/
theorem binarySearchByDuration_no_wrong_hit (list : WorkoutList) (target : Int) :
    ∃ r : Int, binarySearchByDuration list target = some r ∧
      (r = -1 ∨ (0 ≤ r ∧ r < list.count ∧ (slot list.workouts r.toNat).duration = target)) ∧
      ((¬ ∃ k : Nat, (k : Int) < list.count ∧ (slot list.workouts k).duration = target) →
        r = -1) := by
  obtain ⟨r, hr, hcase⟩ := binarySearchLoop_safe list.workouts target
    (list.count.toNat + 1) 0 (list.count - 1) (le_refl 0) (by omega)
  refine ⟨r, hr, ?_, ?_⟩
  · rcases hcase with h | ⟨h1, h2, h3⟩
    · exact Or.inl h
    · exact Or.inr ⟨h1, by omega, h3⟩
  · intro hno
    rcases hcase with h | ⟨h1, h2, h3⟩
    · exact h
    · exact absurd ⟨r.toNat, by omega, h3⟩ hno

end Lab6
